import Mathlib

/-!
Verification of the note-keeper frontend's state-synchronization core.

This file shallowly embeds the program's state machine (the reducer in
NotesContext.js), the persistence adapter (useLocalNotes in notesApi.js)
and the hash router (AppRouter.js) as executable Lean definitions, and
proves or refutes the specified properties about them.

Modelling conventions:
- JavaScript objects used as id-keyed dictionaries are association lists
  with the replace-or-append insertion semantics of JS property writes.
- Timestamps are naturals (epoch milliseconds).  A field holding an ISO
  timestamp string is modelled as an Option Nat, where some t is a truthy
  string and none is an absent (undefined) field.
- Throwing JS code is modelled with Except; a thrown exception is an
  error value.
- The clock (new Date(), Date.now()) and the random id generator are
  explicit parameters.
-/

namespace NoteKeeper

/-! ## Association lists modelling JS object dictionaries -/

/-- Property lookup on a JS object modelled as an association list. -/
def alookup {β : Type} : List (String × β) → String → Option β
  | [], _ => none
  | (k0, v) :: t, k => if k0 = k then some v else alookup t k

/-- Property write on a JS object: replace the binding in place when the
key exists, otherwise append it (JS insertion-order semantics). -/
def ainsert {β : Type} : List (String × β) → String → β → List (String × β)
  | [], k, v => [(k, v)]
  | (k0, v0) :: t, k, v =>
    if k0 = k then (k, v) :: t else (k0, v0) :: ainsert t k v

/-- Property deletion, as in rest-spread destructuring without the key. -/
def aremove {β : Type} : List (String × β) → String → List (String × β)
  | [], _ => []
  | (k0, v0) :: t, k =>
    if k0 = k then aremove t k else (k0, v0) :: aremove t k

/-! ## Entity store (reducer in NotesContext.js) -/

/-- A note object as handled by the reducer.  Optional fields model JS
properties that may be absent; an id is always a string (the empty string
is the falsy id the reducer guards against). -/
structure RNote where
  id : String
  title : Option String := none
  content : Option String := none
  createdAt : Option Nat := none
  updatedAt : Option Nat := none
deriving DecidableEq, Repr

/-- Collection State, the reducer's state shape. -/
structure RState where
  notesById : List (String × RNote)
  order : List String
  selectedNoteId : Option String
  loading : Bool
  error : Option String
  query : String
deriving DecidableEq, Repr

/-- Initial state constant of NotesContext.js. -/
def initialState : RState :=
  { notesById := [], order := [], selectedNoteId := none,
    loading := false, error := none, query := "" }

/-- Value of the notes field of an INIT_LOAD payload: an array, a
non-iterable value, or an absent field (undefined). -/
inductive NotesField where
  | absent
  | arr (l : List RNote)
  | nonArray
deriving DecidableEq, Repr

/-- Value of the note field of a CREATE_NOTE payload. -/
inductive NoteField where
  | absent
  | note (n : RNote)
deriving DecidableEq, Repr

/-- Fields an UPDATE_NOTE payload's updates object may carry; every
present field is spread over the existing note by the reducer. -/
structure UpdSpread where
  title : Option String := none
  content : Option String := none
  id : Option String := none
  createdAt : Option Nat := none
  updatedAt : Option Nat := none
deriving DecidableEq, Repr

/-- Known fields of an action payload object; none models an absent or
nullish field. -/
structure PFields where
  notes : NotesField := .absent
  id : Option String := none
  note : NoteField := .absent
  updates : UpdSpread := {}
  query : Option String := none
  loading : Option Bool := none
  error : Option String := none
deriving DecidableEq, Repr

/-- An action payload: either absent (undefined or null, so that
destructuring it throws) or an object with the known fields. -/
inductive JPayload where
  | missing
  | obj (f : PFields)
deriving DecidableEq, Repr

/-- A dispatched action: an arbitrary type string plus a payload. -/
structure RAction where
  type : String
  payload : JPayload
deriving DecidableEq, Repr

/-- Sort key used by both the reducer's INIT_LOAD and the adapter's
sortNotesByRecent: new Date(a.updatedAt or a.createdAt or 0).getTime(). -/
def keyTime (n : RNote) : Nat :=
  match n.updatedAt with
  | some t => t
  | none => n.createdAt.getD 0

/-- Insertion step of a stable descending sort: x is placed before the
first element whose key is not greater than x's key. -/
def insDesc {α : Type} (key : α → Nat) (x : α) : List α → List α
  | [] => [x]
  | y :: t => if key y ≤ key x then x :: y :: t else y :: insDesc key x t

/-- Stable sort, descending by key.  Array.prototype.sort is stable and
the source comparator (bTime - aTime) is a total preorder on the key, so
any stable descending sort computes the same list as the source. -/
def sortDescBy {α : Type} (key : α → Nat) : List α → List α
  | [] => []
  | x :: t => insDesc key x (sortDescBy key t)

/-- Value of order[0] converted by a truthiness test: the empty string is
falsy and yields null, as in order[0] or null. -/
def headSel : List String → Option String
  | [] => none
  | h :: _ => if h = "" then none else some h

/-- Utility insertAtBeginningUnique of NotesContext.js. -/
def insertAtBeginningUnique (arr : List String) (id : String) : List String :=
  if arr.head? = some id then arr
  else id :: arr.filter (fun x => x ≠ id)

/-- Utility removeFromArray of NotesContext.js. -/
def removeFromArray (arr : List String) (id : String) : List String :=
  arr.filter (fun x => x ≠ id)

/-- INIT_LOAD body, given the notes array obtained from the payload. -/
def initLoadCore (state : RState) (notes : List RNote) : RState :=
  let sorted := sortDescBy keyTime notes
  let notesById := sorted.foldl (fun m n => ainsert m n.id n) []
  let order := sorted.map (fun n => n.id)
  { state with
    notesById := notesById
    order := order
    loading := false
    error := none
    selectedNoteId :=
      match state.selectedNoteId with
      | some sid =>
        if sid ≠ "" ∧ (alookup notesById sid).isSome then some sid
        else headSel order
      | none => headSel order }

/-- CREATE_NOTE body for a note whose id is truthy. -/
def createCore (now : Nat) (state : RState) (n : RNote) : RState :=
  let newNote : RNote :=
    { id := n.id
      title := some (n.title.getD (""))
      content := some (n.content.getD (""))
      createdAt := some (n.createdAt.getD now)
      updatedAt := some (n.updatedAt.getD now) }
  { state with
    notesById := ainsert state.notesById newNote.id newNote
    order := insertAtBeginningUnique state.order newNote.id
    selectedNoteId := some newNote.id
    error := none }

/-- UPDATE_NOTE body once the existing note is found: the updates object
is spread over the existing note, then updatedAt is stamped. -/
def updateCore (now : Nat) (state : RState) (id : String) (existing : RNote)
    (u : UpdSpread) : RState :=
  let updated : RNote :=
    { id := u.id.getD existing.id
      title := u.title <|> existing.title
      content := u.content <|> existing.content
      createdAt := u.createdAt <|> existing.createdAt
      updatedAt := some now }
  { state with
    notesById := ainsert state.notesById id updated
    order := insertAtBeginningUnique state.order id
    error := none }

/-- DELETE_NOTE body once the note is known to exist. -/
def deleteCore (state : RState) (id : String) : RState :=
  let rest := aremove state.notesById id
  let nextOrder := removeFromArray state.order id
  { state with
    notesById := rest
    order := nextOrder
    selectedNoteId :=
      if state.selectedNoteId = some id then headSel nextOrder
      else state.selectedNoteId
    error := none }

/-- The reducer of NotesContext.js.  The clock is an explicit parameter;
an error result models a thrown exception (destructuring a missing
payload, or spreading a non-array notes value). -/
def reducer (now : Nat) (state : RState) (action : RAction) : Except Unit RState :=
  match action.type with
  | "INIT_LOAD" =>
    match action.payload with
    | .missing => .ok (initLoadCore state [])
    | .obj f =>
      match f.notes with
      | .arr notes => .ok (initLoadCore state notes)
      | _ => .error ()
  | "SELECT_NOTE" =>
    match action.payload with
    | .missing => .error ()
    | .obj f => .ok { state with selectedNoteId := f.id }
  | "CREATE_NOTE" =>
    match action.payload with
    | .missing => .error ()
    | .obj f =>
      match f.note with
      | .absent => .ok state
      | .note n => if n.id = "" then .ok state else .ok (createCore now state n)
  | "UPDATE_NOTE" =>
    match action.payload with
    | .missing => .error ()
    | .obj f =>
      match f.id with
      | none => .ok state
      | some id =>
        match alookup state.notesById id with
        | none => .ok state
        | some existing => .ok (updateCore now state id existing f.updates)
  | "DELETE_NOTE" =>
    match action.payload with
    | .missing => .error ()
    | .obj f =>
      match f.id with
      | none => .ok state
      | some id =>
        match alookup state.notesById id with
        | none => .ok state
        | some _ => .ok (deleteCore state id)
  | "SET_SEARCH_QUERY" =>
    match action.payload with
    | .missing => .error ()
    | .obj f => .ok { state with query := f.query.getD ("") }
  | "SET_LOADING" =>
    match action.payload with
    | .missing => .error ()
    | .obj f => .ok { state with loading := f.loading.getD false }
  | "SET_ERROR" =>
    match action.payload with
    | .missing => .error ()
    | .obj f => .ok { state with error := f.error }
  | _ => .ok state

/-- Collection State invariants 1 and 2: order lists exactly the keys of
notesById with no duplicates, and a non-null selection points to an
existing note. -/
def inv (s : RState) : Prop :=
  s.order.Nodup ∧
  (∀ k ∈ s.order, (alookup s.notesById k).isSome = true) ∧
  (∀ p ∈ s.notesById, p.1 ∈ s.order) ∧
  (s.selectedNoteId.all fun sid => (alookup s.notesById sid).isSome) = true

instance (s : RState) : Decidable (inv s) := by
  unfold inv
  infer_instance

/-- Side condition under which the claimed invariant preservation is
provable: a SELECT_NOTE must carry null or an id present in the current
notesById, and an INIT_LOAD notes array must have pairwise distinct ids.
All other actions are unrestricted. -/
def goodAction (s : RState) (a : RAction) : Bool :=
  match a.type, a.payload with
  | "SELECT_NOTE", .obj f =>
    match f.id with
    | none => true
    | some sid => (alookup s.notesById sid).isSome
  | "INIT_LOAD", .obj f =>
    match f.notes with
    | .arr l => decide ((l.map (fun n => n.id)).Nodup)
    | _ => true
  | _, _ => true

/-- String.prototype.trim on a character list: drop whitespace from
both ends. -/
def trimCharList (l : List Char) : List Char :=
  ((l.dropWhile Char.isWhitespace).reverse.dropWhile Char.isWhitespace).reverse

/-- String.prototype.trim. -/
def strTrim (s : String) : String :=
  String.mk (trimCharList s.data)

/-! ## Persistence adapter (useLocalNotes in notesApi.js) -/

/-- Errors thrown by the adapter, one per thrown message.  The spec
taxonomy maps notFound to the message Note not found, and the input
validation errors to InvalidInput. -/
inductive ApiErr where
  | invalidId
  | invalidInput
  | notFound
  | noteNeedsId
deriving DecidableEq, Repr

/-- A stored note as read back from the key-value store.  Optional
fields model absent (undefined) JS properties. -/
structure SNoteRaw where
  id : String
  title : Option String := none
  content : Option String := none
  createdAt : Option Nat := none
  updatedAt : Option Nat := none
deriving DecidableEq, Repr

/-- A fully normalized note: all five fields present. -/
structure SNote where
  id : String
  title : String
  content : String
  createdAt : Nat
  updatedAt : Nat
deriving DecidableEq, Repr

/-- View a normalized note as a stored one. -/
def SNote.toRaw (n : SNote) : SNoteRaw :=
  { id := n.id, title := some n.title, content := some n.content,
    createdAt := some n.createdAt, updatedAt := some n.updatedAt }

/-- The notes map persisted under the notes key of the storage root. -/
def SMap : Type := List (String × SNoteRaw)

/-- Create or Update input fields: absent, a string, or present with a
non-string value. -/
inductive FieldVal where
  | absent
  | fstr (s : String)
  | nonString
deriving DecidableEq, Repr

/-- The updates argument of updateNote: a non-object value (falsy or of
a non-object type) or an object with optional title and content. -/
inductive UpdArg where
  | nonObject
  | obj (title content : FieldVal)
deriving DecidableEq, Repr

/-- The ternary merging one updates field in updateNote: the field value
when it is a string, else the stored value. -/
def chooseField (f : FieldVal) (old : Option String) : Option String :=
  match f with
  | .fstr s => some s
  | _ => old

/-- The argument of createNote.  The id is none when absent or falsy;
createdAt and updatedAt may be supplied by the caller but buildNewNote
never reads them. -/
structure CreateArg where
  id : Option String := none
  title : Option String := none
  content : Option String := none
  createdAt : Option Nat := none
  updatedAt : Option Nat := none
deriving DecidableEq, Repr

/-- Function normalizeNote of notesApi.js.  Throws when the id is
missing or blank; fills missing timestamps from the clock. -/
def normalizeNote (note : SNoteRaw) (now : Nat) : Except ApiErr SNote :=
  let id := strTrim note.id
  if id = "" then .error .noteNeedsId
  else
    let title := note.title.getD ("")
    let content := note.content.getD ("")
    let createdAt := note.createdAt.getD now
    let updatedAt := note.updatedAt.getD createdAt
    .ok { id := id, title := title, content := content,
          createdAt := createdAt, updatedAt := updatedAt }

/-- Function buildNewNote of notesApi.js: id from the argument or the
Identifier Generator, title and content only when they are strings, both
timestamps stamped with the clock.  Caller-supplied timestamps in the
argument are not read. -/
def buildNewNote (arg : CreateArg) (gen : String) (now : Nat) : Except ApiErr SNote :=
  let id := strTrim (match arg.id with
    | some s => if s = "" then gen else s
    | none => gen)
  normalizeNote
    { id := id, title := some (arg.title.getD ("")), content := some (arg.content.getD ("")),
      createdAt := some now, updatedAt := some now } now

/-- Function applyUpdates of notesApi.js, at the shape updateNote calls
it with: a title and content merged over the existing note, then
updatedAt stamped, then the merge normalized. -/
def applyUpdates (existing : SNoteRaw) (title content : Option String)
    (now : Nat) : Except ApiErr SNote :=
  normalizeNote
    { id := existing.id, title := title, content := content,
      createdAt := existing.createdAt, updatedAt := some now } now

/-- Function createNote of notesApi.js.  The generator outputs are the
explicit arguments g1 (first call), g2 (regeneration) and g3 (the inner
fallback of the regeneration call, reached only when g2 is empty).
Returns the result together with the notes map after the call. -/
def createNote (arg : CreateArg) (g1 g2 g3 : String) (now : Nat) (map : SMap) :
    Except ApiErr SNote × SMap :=
  match buildNewNote arg g1 now with
  | .error e => (.error e, map)
  | .ok newNote =>
    if (alookup map newNote.id).isSome then
      match buildNewNote { arg with id := some g2 } g3 now with
      | .error e => (.error e, map)
      | .ok regen => (.ok regen, ainsert map regen.id regen.toRaw)
    else
      (.ok newNote, ainsert map newNote.id newNote.toRaw)

/-- Function updateNote of notesApi.js.  Validation order is exactly the
source order: blank id, then non-object updates, then existence. -/
def updateNote (id : String) (updates : UpdArg) (now : Nat) (map : SMap) :
    Except ApiErr SNote × SMap :=
  let safeId := strTrim id
  if safeId = "" then (.error .invalidId, map)
  else
    match updates with
    | .nonObject => (.error .invalidInput, map)
    | .obj tf cf =>
      match alookup map safeId with
      | none => (.error .notFound, map)
      | some existing =>
        let title : Option String := chooseField tf existing.title
        let content : Option String := chooseField cf existing.content
        match applyUpdates existing title content now with
        | .error e => (.error e, map)
        | .ok updated => (.ok updated, ainsert map safeId updated.toRaw)

/-- Function getNote of notesApi.js: resolves null for a blank id or a
missing note, else the normalized stored note. -/
def getNote (id : String) (now : Nat) (map : SMap) : Except ApiErr (Option SNote) :=
  let safeId := strTrim id
  if safeId = "" then .ok none
  else
    match alookup map safeId with
    | none => .ok none
    | some note => (normalizeNote note now).map some

/-- Function deleteNote of notesApi.js. -/
def deleteNote (id : String) (map : SMap) : Bool × SMap :=
  let safeId := strTrim id
  if safeId = "" then (false, map)
  else
    match alookup map safeId with
    | none => (false, map)
    | some _ => (true, aremove map safeId)

/-! ## Route synchronizer (AppRouter.js)

Addresses are lists of characters.  encodeURIComponent and
decodeURIComponent are modelled after their ECMAScript definitions:
percent-encoding of the UTF-8 bytes of every character outside the
unreserved set, and strict UTF-8 decoding that fails (throws, modelled
as none) on malformed percent sequences. -/

/-- Uppercase hexadecimal digit, as produced by encodeURIComponent. -/
def hexDig (n : Nat) : Char :=
  if n < 10 then Char.ofNat (48 + n) else Char.ofNat (55 + n)

/-- Value of a hexadecimal digit character, either case. -/
def hexVal (c : Char) : Option Nat :=
  if 48 ≤ c.toNat ∧ c.toNat ≤ 57 then some (c.toNat - 48)
  else if 65 ≤ c.toNat ∧ c.toNat ≤ 70 then some (c.toNat - 55)
  else if 97 ≤ c.toNat ∧ c.toNat ≤ 102 then some (c.toNat - 87)
  else none

/-- UTF-8 encoding of a Unicode scalar value. -/
def utf8Bytes (n : Nat) : List Nat :=
  if n < 128 then [n]
  else if n < 2048 then [192 + n / 64, 128 + n % 64]
  else if n < 65536 then [224 + n / 4096, 128 + (n / 64) % 64, 128 + n % 64]
  else [240 + n / 262144, 128 + (n / 4096) % 64, 128 + (n / 64) % 64, 128 + n % 64]

/-- Percent-encode a list of bytes. -/
def pctEncodeBytes : List Nat → List Char
  | [] => []
  | b :: t => '%' :: hexDig (b / 16) :: hexDig (b % 16) :: pctEncodeBytes t

/-- Characters encodeURIComponent leaves intact: ASCII alphanumerics and
minus, underscore, dot, exclamation mark, tilde, asterisk, apostrophe
and parentheses (codes 45 95 46 33 126 42 39 40 41). -/
def unreservedChar (c : Char) : Bool :=
  c.isAlphanum || [45, 95, 46, 33, 126, 42, 39, 40, 41].contains c.toNat

/-- Encoding of one character. -/
def encodeChar (c : Char) : List Char :=
  if unreservedChar c then [c] else pctEncodeBytes (utf8Bytes c.toNat)

/-- ECMAScript encodeURIComponent on a character list. -/
def encodeURIComponent : List Char → List Char
  | [] => []
  | c :: t => encodeChar c ++ encodeURIComponent t

/-- Parse one percent escape cluster after an initial percent sign: two
hexadecimal digits giving the first byte, then, for a multi-byte UTF-8
lead byte, the remaining continuation bytes given as further percent
escapes.  Returns the decoded character and the rest of the input, or
none for a malformed sequence (bad hex, stray or missing continuation,
overlong form, surrogate, or value above 0x10FFFF).  The second
component is the number of characters of the cluster after the percent
sign: 2, 5, 8 or 11. -/
def decodePct : List Char → Option (Char × Nat)
  | h1 :: l1 :: r1 =>
    match hexVal h1, hexVal l1 with
    | some a, some b =>
      let b1 := 16 * a + b
      if b1 < 128 then some (Char.ofNat b1, 2)
      else if b1 < 192 then none
      else if b1 < 224 then
        match r1 with
        | '%' :: h2 :: l2 :: _ =>
          match hexVal h2, hexVal l2 with
          | some a2, some b2 =>
            let c2 := 16 * a2 + b2
            if 128 ≤ c2 ∧ c2 < 192 then
              let v := (b1 - 192) * 64 + (c2 - 128)
              if 128 ≤ v then some (Char.ofNat v, 5) else none
            else none
          | _, _ => none
        | _ => none
      else if b1 < 240 then
        match r1 with
        | '%' :: h2 :: l2 :: '%' :: h3 :: l3 :: _ =>
          match hexVal h2, hexVal l2, hexVal h3, hexVal l3 with
          | some a2, some b2, some a3, some b3 =>
            let c2 := 16 * a2 + b2
            let c3 := 16 * a3 + b3
            if (128 ≤ c2 ∧ c2 < 192) ∧ (128 ≤ c3 ∧ c3 < 192) then
              let v := (b1 - 224) * 4096 + (c2 - 128) * 64 + (c3 - 128)
              if 2048 ≤ v ∧ ¬ (55296 ≤ v ∧ v < 57344) then
                some (Char.ofNat v, 8)
              else none
            else none
          | _, _, _, _ => none
        | _ => none
      else if b1 < 248 then
        match r1 with
        | '%' :: h2 :: l2 :: '%' :: h3 :: l3 :: '%' :: h4 :: l4 :: _ =>
          match hexVal h2, hexVal l2, hexVal h3, hexVal l3, hexVal h4, hexVal l4 with
          | some a2, some b2, some a3, some b3, some a4, some b4 =>
            let c2 := 16 * a2 + b2
            let c3 := 16 * a3 + b3
            let c4 := 16 * a4 + b4
            if (128 ≤ c2 ∧ c2 < 192) ∧ (128 ≤ c3 ∧ c3 < 192) ∧ (128 ≤ c4 ∧ c4 < 192) then
              let v := (b1 - 240) * 262144 + (c2 - 128) * 4096 + (c3 - 128) * 64 + (c4 - 128)
              if 65536 ≤ v ∧ v < 1114112 then some (Char.ofNat v, 11) else none
            else none
          | _, _, _, _, _, _ => none
        | _ => none
      else none
    | _, _ => none
  | _ => none

/-- ECMAScript decodeURIComponent: none models a thrown URIError.  Every
percent sign starts an escape cluster parsed by decodePct; other
characters pass through unchanged. -/
def decodeURIComponent : List Char → Option (List Char)
  | [] => some []
  | c :: t =>
    if c = '%' then
      match decodePct t with
      | some (ch, k) => (decodeURIComponent (t.drop k)).map (fun d => ch :: d)
      | none => none
    else (decodeURIComponent t).map (fun d => c :: d)
termination_by l => l.length
decreasing_by
  · simp only [List.length_cons, List.length_drop]
    omega
  · simp_arith

/-- The two routes of the hash router. -/
inductive Route where
  | home
  | note (id : List Char)
deriving DecidableEq, Repr

/-- Normalization pipeline of parseHash: trim, strip a leading hash
mark, default to the root path, ensure a leading slash. -/
def normalizeHash (s : List Char) : List Char :=
  let raw := trimCharList s
  let hash := match raw with
    | '#' :: t => t
    | _ => raw
  let path := if hash = [] then ['/'] else hash
  if path.head? = some '/' then path else '/' :: path

/-- The note-route pattern of parseHash: a leading slash-note-slash, then
a non-empty maximal run of characters other than slash, question mark
and hash mark (the capture group). -/
def matchNote : List Char → Option (List Char)
  | '/' :: 'n' :: 'o' :: 't' :: 'e' :: '/' :: rest =>
    let seg := rest.takeWhile (fun c => !(c = '/' || c = '?' || c = '#'))
    if seg = [] then none else some seg
  | _ => none

/-- Function parseHash of AppRouter.js.  none models a thrown URIError
from decodeURIComponent. -/
def parseHash (s : List Char) : Option Route :=
  let normalized := normalizeHash s
  if normalized = ['/'] ∨ normalized = [] then some .home
  else
    match matchNote normalized with
    | some seg => (decodeURIComponent seg).map Route.note
    | none => some .home

/-- Function buildHashForNote of AppRouter.js. -/
def buildHashForNote (id : List Char) : List Char :=
  if id = [] then ['#', '/']
  else ['#', '/', 'n', 'o', 't', 'e', '/'] ++ encodeURIComponent id

theorem alookup_ainsert_self {β : Type} (m : List (String × β)) (k : String) (v : β) :
    alookup (ainsert m k v) k = some v := by
  induction m with
  | nil => simp [ainsert, alookup]
  | cons h t ih =>
    obtain ⟨k0, v0⟩ := h
    by_cases hk : k0 = k
    · simp [ainsert, hk, alookup]
    · simp [ainsert, hk, alookup, ih]

theorem alookup_ainsert_ne {β : Type} (m : List (String × β)) (k k1 : String) (v : β)
    (h : k ≠ k1) : alookup (ainsert m k v) k1 = alookup m k1 := by
  induction m with
  | nil => simp [ainsert, alookup, h]
  | cons hd t ih =>
    obtain ⟨k0, v0⟩ := hd
    by_cases hk : k0 = k
    · subst hk
      simp [ainsert, alookup, h]
    · simp [ainsert, hk, alookup, ih]

theorem alookup_aremove_self {β : Type} (m : List (String × β)) (k : String) :
    alookup (aremove m k) k = none := by
  induction m with
  | nil => simp [aremove, alookup]
  | cons hd t ih =>
    obtain ⟨k0, v0⟩ := hd
    by_cases hk : k0 = k
    · simpa [aremove, hk] using ih
    · simp [aremove, hk, alookup, ih]

theorem alookup_aremove_ne {β : Type} (m : List (String × β)) (k k1 : String)
    (h : k ≠ k1) : alookup (aremove m k) k1 = alookup m k1 := by
  induction m with
  | nil => simp [aremove, alookup]
  | cons hd t ih =>
    obtain ⟨k0, v0⟩ := hd
    by_cases hk : k0 = k
    · subst hk
      simp [aremove, alookup, h, ih]
    · by_cases hk1 : k0 = k1
      · subst hk1
        simp [aremove, hk, alookup]
      · simp [aremove, hk, hk1, alookup, ih]

theorem ainsert_ainsert_self {β : Type} (m : List (String × β)) (k : String) (v : β) :
    ainsert (ainsert m k v) k v = ainsert m k v := by
  induction m with
  | nil => simp [ainsert]
  | cons hd t ih =>
    obtain ⟨k0, v0⟩ := hd
    by_cases hk : k0 = k
    · simp [ainsert, hk]
    · simp [ainsert, hk, ih]

theorem alookup_isSome_ainsert {β : Type} (m : List (String × β)) (k k1 : String) (v : β) :
    (alookup (ainsert m k v) k1).isSome = (k1 = k ∨ (alookup m k1).isSome = true : Prop) := by
  by_cases h : k1 = k
  · subst h
    simp [alookup_ainsert_self]
  · rw [alookup_ainsert_ne m k k1 v (Ne.symm h)]
    simp [h]

/-! ## Lemmas about the order helpers -/

theorem mem_insertAtBeginningUnique (l : List String) (id k : String) :
    k ∈ insertAtBeginningUnique l id ↔ (k = id ∨ k ∈ l) := by
  unfold insertAtBeginningUnique
  by_cases h : l.head? = some id
  · simp only [h, if_pos rfl]
    constructor
    · exact fun hk => Or.inr hk
    · rintro (rfl | hk)
      · exact List.mem_of_mem_head? (by simp [h])
      · exact hk
  · rw [if_neg h]
    by_cases hk : k = id
    · subst hk
      simp
    · simp [hk, List.mem_filter]

theorem nodup_insertAtBeginningUnique (l : List String) (id : String)
    (h : l.Nodup) : (insertAtBeginningUnique l id).Nodup := by
  unfold insertAtBeginningUnique
  by_cases hh : l.head? = some id
  · simpa [hh] using h
  · rw [if_neg hh]
    refine List.Nodup.cons ?_ (List.Nodup.filter _ h)
    intro hmem
    rcases List.mem_filter.mp hmem with ⟨_, hne⟩
    simp at hne

theorem head_insertAtBeginningUnique (l : List String) (id : String) :
    (insertAtBeginningUnique l id).head? = some id := by
  unfold insertAtBeginningUnique
  by_cases hh : l.head? = some id
  · simp [hh]
  · simp [hh]

theorem mem_removeFromArray (l : List String) (id k : String) :
    k ∈ removeFromArray l id ↔ (k ∈ l ∧ k ≠ id) := by
  simp [removeFromArray, List.mem_filter]

theorem nodup_removeFromArray (l : List String) (id : String) (h : l.Nodup) :
    (removeFromArray l id).Nodup :=
  List.Nodup.filter _ h

theorem mem_of_headSel (l : List String) (h : String) (hh : headSel l = some h) :
    h ∈ l ∧ h ≠ "" := by
  cases l with
  | nil => simp [headSel] at hh
  | cons x t =>
    by_cases hx : x = ""
    · simp [headSel, hx] at hh
    · simp only [headSel, if_neg hx, Option.some.injEq] at hh
      subst hh
      exact ⟨List.mem_cons_self _ _, hx⟩

/-! ## Lemmas about the map-building fold of INIT_LOAD -/

theorem mem_ainsert {β : Type} (m : List (String × β)) (k : String) (v : β)
    (p : String × β) (h : p ∈ ainsert m k v) : p = (k, v) ∨ p ∈ m := by
  induction m with
  | nil => simpa [ainsert] using h
  | cons hd t ih =>
    obtain ⟨k0, v0⟩ := hd
    by_cases hk : k0 = k
    · simp only [ainsert, if_pos hk] at h
      rcases List.mem_cons.mp h with h1 | h1
      · exact Or.inl h1
      · exact Or.inr (List.mem_cons_of_mem _ h1)
    · simp only [ainsert, if_neg hk] at h
      rcases List.mem_cons.mp h with h1 | h1
      · exact Or.inr (by simp [h1])
      · rcases ih h1 with h2 | h2
        · exact Or.inl h2
        · exact Or.inr (List.mem_cons_of_mem _ h2)

theorem alookup_loadFold (l : List RNote) (m : List (String × RNote)) (k : String) :
    (alookup (l.foldl (fun m n => ainsert m n.id n) m) k).isSome = true ↔
      (k ∈ l.map (fun n => n.id) ∨ (alookup m k).isSome = true) := by
  induction l generalizing m with
  | nil => simp
  | cons n t ih =>
    simp only [List.foldl_cons, List.map_cons, List.mem_cons]
    rw [ih]
    constructor
    · rintro (h | h)
      · exact Or.inl (Or.inr h)
      · by_cases hk : k = n.id
        · exact Or.inl (Or.inl hk)
        · rw [alookup_ainsert_ne _ _ _ _ (fun he => hk he.symm)] at h
          exact Or.inr h
    · rintro ((h | h) | h)
      · subst h
        exact Or.inr (by simp [alookup_ainsert_self])
      · exact Or.inl h
      · by_cases hk : k = n.id
        · subst hk
          exact Or.inr (by simp [alookup_ainsert_self])
        · exact Or.inr (by rw [alookup_ainsert_ne _ _ _ _ (fun he => hk he.symm)]; exact h)

theorem mem_loadFold (l : List RNote) (m : List (String × RNote))
    (p : String × RNote) (h : p ∈ l.foldl (fun m n => ainsert m n.id n) m) :
    p.1 ∈ l.map (fun n => n.id) ∨ p ∈ m := by
  induction l generalizing m with
  | nil => simpa using h
  | cons n t ih =>
    simp only [List.foldl_cons] at h
    rcases ih _ h with h1 | h1
    · exact Or.inl (by simp only [List.map_cons, List.mem_cons]; exact Or.inr h1)
    · rcases mem_ainsert _ _ _ _ h1 with h2 | h2
      · subst h2
        simp
      · exact Or.inr h2

/-! ## Permutation and stability of the descending sort -/

theorem insDesc_perm {α : Type} (key : α → Nat) (x : α) (l : List α) :
    List.Perm (insDesc key x l) (x :: l) := by
  induction l with
  | nil => exact List.Perm.refl _
  | cons y t ih =>
    by_cases h : key y ≤ key x
    · simp only [insDesc, if_pos h]
      exact List.Perm.refl _
    · simp only [insDesc, if_neg h]
      exact (List.Perm.cons y ih).trans (List.Perm.swap x y t)

theorem sortDescBy_perm {α : Type} (key : α → Nat) (l : List α) :
    List.Perm (sortDescBy key l) l := by
  induction l with
  | nil => exact List.Perm.refl _
  | cons x t ih =>
    exact (insDesc_perm key x (sortDescBy key t)).trans (List.Perm.cons x ih)

theorem pairwise_insDesc {α : Type} (key : α → Nat) (x : α) (l : List α)
    (h : l.Pairwise (fun a b => key b ≤ key a)) :
    (insDesc key x l).Pairwise (fun a b => key b ≤ key a) := by
  induction l with
  | nil => simp [insDesc]
  | cons y u ih =>
    rcases List.pairwise_cons.mp h with ⟨hy, hu⟩
    by_cases hle : key y ≤ key x
    · simp only [insDesc, if_pos hle]
      refine List.pairwise_cons.mpr ⟨?_, h⟩
      intro b hb
      rcases List.mem_cons.mp hb with rfl | hb
      · exact hle
      · exact le_trans (hy b hb) hle
    · simp only [insDesc, if_neg hle]
      refine List.pairwise_cons.mpr ⟨?_, ih hu⟩
      intro b hb
      rcases List.mem_cons.mp ((insDesc_perm key x u).mem_iff.mp hb) with rfl | hb
      · exact le_of_not_le hle
      · exact hy b hb

theorem sortDescBy_sorted {α : Type} (key : α → Nat) (l : List α) :
    (sortDescBy key l).Pairwise (fun a b => key b ≤ key a) := by
  induction l with
  | nil => simp [sortDescBy]
  | cons x t ih => exact pairwise_insDesc key x _ ih

theorem filter_insDesc {α : Type} (key : α → Nat) (x : α) (l : List α) (t : Nat) :
    (insDesc key x l).filter (fun n => key n = t) =
      if key x = t then x :: l.filter (fun n => key n = t)
      else l.filter (fun n => key n = t) := by
  induction l with
  | nil =>
    by_cases h : key x = t
    · simp [insDesc, h]
    · simp [insDesc, h]
  | cons y u ih =>
    simp only [insDesc]
    by_cases hle : key y ≤ key x
    · rw [if_pos hle]
      by_cases hx : key x = t <;> simp [List.filter_cons, hx]
    · rw [if_neg hle]
      by_cases hx : key x = t
      · have hy : ¬ key y = t := fun hy => hle (le_of_eq (hy.trans hx.symm))
        simp [List.filter_cons, hx, hy, ih]
      · by_cases hy : key y = t <;> simp [List.filter_cons, hx, hy, ih]

theorem sortDescBy_stable {α : Type} (key : α → Nat) (l : List α) (t : Nat) :
    (sortDescBy key l).filter (fun n => key n = t) = l.filter (fun n => key n = t) := by
  induction l with
  | nil => rfl
  | cons x u ih =>
    simp only [sortDescBy]
    rw [filter_insDesc]
    by_cases h : key x = t <;> simp [List.filter_cons, h, ih]

/-! ## Invariant preservation for the reducer -/

theorem mem_aremove {β : Type} (m : List (String × β)) (k : String)
    (p : String × β) (h : p ∈ aremove m k) : p ∈ m ∧ p.1 ≠ k := by
  induction m with
  | nil => simp [aremove] at h
  | cons hd t ih =>
    obtain ⟨k0, v0⟩ := hd
    by_cases hk : k0 = k
    · rw [aremove, if_pos hk] at h
      rcases ih h with ⟨h1, h2⟩
      exact ⟨List.mem_cons_of_mem _ h1, h2⟩
    · rw [aremove, if_neg hk] at h
      rcases List.mem_cons.mp h with h1 | h1
      · subst h1
        exact ⟨List.mem_cons_self _ _, hk⟩
      · rcases ih h1 with ⟨h2, h3⟩
        exact ⟨List.mem_cons_of_mem _ h2, h3⟩

theorem inv_initLoadCore (s : RState) (notes : List RNote)
    (hnd : (notes.map (fun n => n.id)).Nodup) : inv (initLoadCore s notes) := by
  have hperm : List.Perm ((sortDescBy keyTime notes).map (fun n => n.id))
      (notes.map (fun n => n.id)) := (sortDescBy_perm keyTime notes).map _
  have hndS : ((sortDescBy keyTime notes).map (fun n => n.id)).Nodup :=
    hperm.nodup_iff.mpr hnd
  have hlook : ∀ k, (alookup ((sortDescBy keyTime notes).foldl
      (fun m n => ainsert m n.id n) []) k).isSome = true ↔
      k ∈ (sortDescBy keyTime notes).map (fun n => n.id) := by
    intro k
    rw [alookup_loadFold]
    simp [alookup]
  refine ⟨hndS, ?_, ?_, ?_⟩
  · intro k hk
    exact (hlook k).mpr hk
  · intro p hp
    rcases mem_loadFold _ _ _ hp with h1 | h1
    · exact h1
    · simp at h1
  · show Option.all _ _ = true
    simp only [initLoadCore]
    cases hsel : s.selectedNoteId with
    | none =>
      simp only
      cases hh : headSel ((sortDescBy keyTime notes).map (fun n => n.id)) with
      | none => simp [Option.all]
      | some h =>
        simp only [Option.all]
        exact (hlook h).mpr (mem_of_headSel _ _ hh).1
    | some sid =>
      simp only
      by_cases hc : sid ≠ "" ∧ (alookup ((sortDescBy keyTime notes).foldl
          (fun m n => ainsert m n.id n) []) sid).isSome
      · rw [if_pos hc]
        simpa [Option.all] using hc.2
      · rw [if_neg hc]
        cases hh : headSel ((sortDescBy keyTime notes).map (fun n => n.id)) with
        | none => simp [Option.all]
        | some h =>
          simp only [Option.all]
          exact (hlook h).mpr (mem_of_headSel _ _ hh).1

theorem inv_createCore (now : Nat) (s : RState) (n : RNote) (hs : inv s) :
    inv (createCore now s n) := by
  obtain ⟨h1, h2, h3, h4⟩ := hs
  refine ⟨nodup_insertAtBeginningUnique _ _ h1, ?_, ?_, ?_⟩
  · intro k hk
    rcases (mem_insertAtBeginningUnique _ _ _).mp hk with rfl | hk
    · simp [createCore, alookup_ainsert_self]
    · show (alookup (ainsert s.notesById _ _) k).isSome = true
      rw [alookup_isSome_ainsert]
      exact Or.inr (h2 k hk)
  · intro p hp
    rcases mem_ainsert _ _ _ _ hp with hp1 | hp1
    · subst hp1
      exact (mem_insertAtBeginningUnique _ _ _).mpr (Or.inl rfl)
    · exact (mem_insertAtBeginningUnique _ _ _).mpr (Or.inr (h3 p hp1))
  · show Option.all _ _ = true
    simp [Option.all, createCore, alookup_ainsert_self]

theorem inv_updateCore (now : Nat) (s : RState) (id : String) (existing : RNote)
    (u : UpdSpread) (hs : inv s) : inv (updateCore now s id existing u) := by
  obtain ⟨h1, h2, h3, h4⟩ := hs
  refine ⟨nodup_insertAtBeginningUnique _ _ h1, ?_, ?_, ?_⟩
  · intro k hk
    rcases (mem_insertAtBeginningUnique _ _ _).mp hk with rfl | hk
    · simp [updateCore, alookup_ainsert_self]
    · show (alookup (ainsert s.notesById _ _) k).isSome = true
      rw [alookup_isSome_ainsert]
      exact Or.inr (h2 k hk)
  · intro p hp
    rcases mem_ainsert _ _ _ _ hp with hp1 | hp1
    · subst hp1
      exact (mem_insertAtBeginningUnique _ _ _).mpr (Or.inl rfl)
    · exact (mem_insertAtBeginningUnique _ _ _).mpr (Or.inr (h3 p hp1))
  · show Option.all _ _ = true
    cases hsel : s.selectedNoteId with
    | none => simp [Option.all, updateCore, hsel]
    | some sid =>
      rw [hsel] at h4
      simp only [Option.all] at h4
      simp only [Option.all, updateCore, hsel]
      rw [alookup_isSome_ainsert]
      exact Or.inr h4

theorem inv_deleteCore (s : RState) (id : String) (hs : inv s) :
    inv (deleteCore s id) := by
  obtain ⟨h1, h2, h3, h4⟩ := hs
  have h2' : ∀ k ∈ removeFromArray s.order id,
      (alookup (aremove s.notesById id) k).isSome = true := by
    intro k hk
    rcases (mem_removeFromArray _ _ _).mp hk with ⟨hk1, hk2⟩
    rw [alookup_aremove_ne _ _ _ (fun he => hk2 he.symm)]
    exact h2 k hk1
  refine ⟨nodup_removeFromArray _ _ h1, h2', ?_, ?_⟩
  · intro p hp
    rcases mem_aremove _ _ _ hp with ⟨hp1, hp2⟩
    exact (mem_removeFromArray _ _ _).mpr ⟨h3 p hp1, hp2⟩
  · show Option.all _ _ = true
    simp only [deleteCore]
    by_cases hc : s.selectedNoteId = some id
    · rw [if_pos hc]
      cases hh : headSel (removeFromArray s.order id) with
      | none => simp [Option.all]
      | some h =>
        simp only [Option.all]
        exact h2' h (mem_of_headSel _ _ hh).1
    · rw [if_neg hc]
      cases hsel : s.selectedNoteId with
      | none => simp [Option.all]
      | some sid =>
        rw [hsel] at h4 hc
        simp only [Option.all] at h4
        simp only [Option.all]
        have hne : sid ≠ id := fun he => hc (by rw [he])
        rw [alookup_aremove_ne _ _ _ (fun he => hne he.symm)]
        exact h4

/-! ## Round trip of percent encoding and decoding -/

theorem hexVal_hexDig : ∀ n < 16, hexVal (hexDig n) = some n := by decide

theorem decode_pctEncode_1 (n : Nat) (rest : List Char) (h : n < 128) :
    decodeURIComponent (pctEncodeBytes (utf8Bytes n) ++ rest) =
      (decodeURIComponent rest).map (fun d => Char.ofNat n :: d) := by
  rw [utf8Bytes, if_pos h]
  simp only [pctEncodeBytes, List.cons_append, List.nil_append]
  rw [decodeURIComponent]
  rw [if_pos rfl]
  have e1 : hexVal (hexDig (n / 16)) = some (n / 16) := hexVal_hexDig _ (by omega)
  have e2 : hexVal (hexDig (n % 16)) = some (n % 16) := hexVal_hexDig _ (by omega)
  have hb : 16 * (n / 16) + n % 16 = n := by omega
  simp only [decodePct, e1, e2, hb, if_pos h]
  simp [List.drop]

theorem decode_pctEncode_2 (n : Nat) (rest : List Char) (h1 : 128 ≤ n) (h2 : n < 2048) :
    decodeURIComponent (pctEncodeBytes (utf8Bytes n) ++ rest) =
      (decodeURIComponent rest).map (fun d => Char.ofNat n :: d) := by
  rw [utf8Bytes, if_neg (by omega), if_pos h2]
  simp only [pctEncodeBytes, List.cons_append, List.nil_append]
  rw [decodeURIComponent]
  rw [if_pos rfl]
  have e11 : hexVal (hexDig ((192 + n / 64) / 16)) = some ((192 + n / 64) / 16) :=
    hexVal_hexDig _ (by omega)
  have e12 : hexVal (hexDig ((192 + n / 64) % 16)) = some ((192 + n / 64) % 16) :=
    hexVal_hexDig _ (by omega)
  have e21 : hexVal (hexDig ((128 + n % 64) / 16)) = some ((128 + n % 64) / 16) :=
    hexVal_hexDig _ (by omega)
  have e22 : hexVal (hexDig ((128 + n % 64) % 16)) = some ((128 + n % 64) % 16) :=
    hexVal_hexDig _ (by omega)
  have hb1 : 16 * ((192 + n / 64) / 16) + (192 + n / 64) % 16 = 192 + n / 64 := by omega
  have hb2 : 16 * ((128 + n % 64) / 16) + (128 + n % 64) % 16 = 128 + n % 64 := by omega
  have hv : (192 + n / 64 - 192) * 64 + (128 + n % 64 - 128) = n := by omega
  simp only [decodePct, e11, e12, e21, e22, hb1, hb2, hv]
  rw [if_neg (by omega), if_neg (by omega), if_pos (by omega), if_pos (by omega),
    if_pos (by omega)]
  simp [List.drop]

theorem decode_pctEncode_3 (n : Nat) (rest : List Char) (h1 : 2048 ≤ n) (h2 : n < 65536)
    (hs : ¬ (55296 ≤ n ∧ n < 57344)) :
    decodeURIComponent (pctEncodeBytes (utf8Bytes n) ++ rest) =
      (decodeURIComponent rest).map (fun d => Char.ofNat n :: d) := by
  rw [utf8Bytes, if_neg (by omega), if_neg (by omega), if_pos h2]
  simp only [pctEncodeBytes, List.cons_append, List.nil_append]
  rw [decodeURIComponent]
  rw [if_pos rfl]
  have e11 : hexVal (hexDig ((224 + n / 4096) / 16)) = some ((224 + n / 4096) / 16) :=
    hexVal_hexDig _ (by omega)
  have e12 : hexVal (hexDig ((224 + n / 4096) % 16)) = some ((224 + n / 4096) % 16) :=
    hexVal_hexDig _ (by omega)
  have e21 : hexVal (hexDig ((128 + n / 64 % 64) / 16)) = some ((128 + n / 64 % 64) / 16) :=
    hexVal_hexDig _ (by omega)
  have e22 : hexVal (hexDig ((128 + n / 64 % 64) % 16)) = some ((128 + n / 64 % 64) % 16) :=
    hexVal_hexDig _ (by omega)
  have e31 : hexVal (hexDig ((128 + n % 64) / 16)) = some ((128 + n % 64) / 16) :=
    hexVal_hexDig _ (by omega)
  have e32 : hexVal (hexDig ((128 + n % 64) % 16)) = some ((128 + n % 64) % 16) :=
    hexVal_hexDig _ (by omega)
  have hb1 : 16 * ((224 + n / 4096) / 16) + (224 + n / 4096) % 16 = 224 + n / 4096 := by omega
  have hb2 : 16 * ((128 + n / 64 % 64) / 16) + (128 + n / 64 % 64) % 16 = 128 + n / 64 % 64 := by
    omega
  have hb3 : 16 * ((128 + n % 64) / 16) + (128 + n % 64) % 16 = 128 + n % 64 := by omega
  have hv : (224 + n / 4096 - 224) * 4096 + (128 + n / 64 % 64 - 128) * 64 + (128 + n % 64 - 128)
      = n := by omega
  simp only [decodePct, e11, e12, e21, e22, e31, e32, hb1, hb2, hb3, hv]
  rw [if_neg (by omega), if_neg (by omega), if_neg (by omega), if_pos (by omega),
    if_pos (by constructor <;> omega), if_pos (by exact ⟨h1, hs⟩)]
  simp [List.drop]

theorem decode_pctEncode_4 (n : Nat) (rest : List Char) (h1 : 65536 ≤ n) (h2 : n < 1114112) :
    decodeURIComponent (pctEncodeBytes (utf8Bytes n) ++ rest) =
      (decodeURIComponent rest).map (fun d => Char.ofNat n :: d) := by
  rw [utf8Bytes, if_neg (by omega), if_neg (by omega), if_neg (by omega)]
  simp only [pctEncodeBytes, List.cons_append, List.nil_append]
  rw [decodeURIComponent]
  rw [if_pos rfl]
  have e11 : hexVal (hexDig ((240 + n / 262144) / 16)) = some ((240 + n / 262144) / 16) :=
    hexVal_hexDig _ (by omega)
  have e12 : hexVal (hexDig ((240 + n / 262144) % 16)) = some ((240 + n / 262144) % 16) :=
    hexVal_hexDig _ (by omega)
  have e21 : hexVal (hexDig ((128 + n / 4096 % 64) / 16)) = some ((128 + n / 4096 % 64) / 16) :=
    hexVal_hexDig _ (by omega)
  have e22 : hexVal (hexDig ((128 + n / 4096 % 64) % 16)) = some ((128 + n / 4096 % 64) % 16) :=
    hexVal_hexDig _ (by omega)
  have e31 : hexVal (hexDig ((128 + n / 64 % 64) / 16)) = some ((128 + n / 64 % 64) / 16) :=
    hexVal_hexDig _ (by omega)
  have e32 : hexVal (hexDig ((128 + n / 64 % 64) % 16)) = some ((128 + n / 64 % 64) % 16) :=
    hexVal_hexDig _ (by omega)
  have e41 : hexVal (hexDig ((128 + n % 64) / 16)) = some ((128 + n % 64) / 16) :=
    hexVal_hexDig _ (by omega)
  have e42 : hexVal (hexDig ((128 + n % 64) % 16)) = some ((128 + n % 64) % 16) :=
    hexVal_hexDig _ (by omega)
  have hb1 : 16 * ((240 + n / 262144) / 16) + (240 + n / 262144) % 16 = 240 + n / 262144 := by
    omega
  have hb2 : 16 * ((128 + n / 4096 % 64) / 16) + (128 + n / 4096 % 64) % 16
      = 128 + n / 4096 % 64 := by omega
  have hb3 : 16 * ((128 + n / 64 % 64) / 16) + (128 + n / 64 % 64) % 16 = 128 + n / 64 % 64 := by
    omega
  have hb4 : 16 * ((128 + n % 64) / 16) + (128 + n % 64) % 16 = 128 + n % 64 := by omega
  have hv : (240 + n / 262144 - 240) * 262144 + (128 + n / 4096 % 64 - 128) * 4096 +
      (128 + n / 64 % 64 - 128) * 64 + (128 + n % 64 - 128) = n := by omega
  simp only [decodePct, e11, e12, e21, e22, e31, e32, e41, e42, hb1, hb2, hb3, hb4, hv]
  rw [if_neg (by omega), if_neg (by omega), if_neg (by omega), if_neg (by omega),
    if_pos (by omega), if_pos (by refine ⟨⟨?_, ?_⟩, ⟨?_, ?_⟩, ?_, ?_⟩ <;> omega),
    if_pos (by exact ⟨h1, h2⟩)]
  simp [List.drop]

theorem decodeChar_step (c : Char) (rest : List Char) :
    decodeURIComponent (encodeChar c ++ rest) =
      (decodeURIComponent rest).map (fun d => c :: d) := by
  by_cases hu : unreservedChar c
  · rw [encodeChar, if_pos hu]
    have hne : ¬ c = '%' := by
      intro he
      subst he
      exact absurd hu (by decide)
    simp only [List.cons_append, List.nil_append]
    rw [decodeURIComponent, if_neg hne]
  · rw [encodeChar, if_neg hu]
    have hval : c.toNat < 55296 ∨ (57343 < c.toNat ∧ c.toNat < 1114112) := c.valid
    rcases hval with hv | hv
    · by_cases hA : c.toNat < 128
      · rw [decode_pctEncode_1 _ _ hA, Char.ofNat_toNat]
      · by_cases hB : c.toNat < 2048
        · rw [decode_pctEncode_2 _ _ (by omega) hB, Char.ofNat_toNat]
        · rw [decode_pctEncode_3 _ _ (by omega) (by omega) (by omega), Char.ofNat_toNat]
    · obtain ⟨hv1, hv2⟩ := hv
      by_cases hC : c.toNat < 65536
      · rw [decode_pctEncode_3 _ _ (by omega) hC (by omega), Char.ofNat_toNat]
      · rw [decode_pctEncode_4 _ _ (by omega) hv2, Char.ofNat_toNat]

theorem decode_encode (l : List Char) :
    decodeURIComponent (encodeURIComponent l) = some l := by
  induction l with
  | nil => rw [encodeURIComponent, decodeURIComponent]
  | cons c t ih =>
    rw [encodeURIComponent, decodeChar_step, ih]
    rfl

/-! ## Address parsing of the built canonical address -/

theorem dropWhile_all_false {α : Type} (p : α → Bool) (l : List α)
    (h : ∀ x ∈ l, p x = false) : l.dropWhile p = l := by
  cases l with
  | nil => rfl
  | cons x t => simp [List.dropWhile, h x (List.mem_cons_self _ _)]

theorem trimCharList_all_false (l : List Char)
    (h : ∀ x ∈ l, x.isWhitespace = false) : trimCharList l = l := by
  rw [trimCharList, dropWhile_all_false _ _ h,
    dropWhile_all_false _ _ (fun x hx => h x (List.mem_reverse.mp hx)),
    List.reverse_reverse]

theorem takeWhile_all_true {α : Type} (p : α → Bool) (l : List α)
    (h : ∀ x ∈ l, p x = true) : l.takeWhile p = l := by
  induction l with
  | nil => rfl
  | cons x t ih =>
    have hx := h x (List.mem_cons_self _ _)
    simp [List.takeWhile_cons, hx, ih (fun y hy => h y (List.mem_cons_of_mem _ hy))]

theorem utf8Bytes_lt (n : Nat) (hn : n < 1114112) : ∀ b ∈ utf8Bytes n, b < 256 := by
  intro b hb
  rw [utf8Bytes] at hb
  by_cases h1 : n < 128
  · rw [if_pos h1] at hb
    simp at hb
    omega
  · rw [if_neg h1] at hb
    by_cases h2 : n < 2048
    · rw [if_pos h2] at hb
      simp at hb
      rcases hb with rfl | rfl <;> omega
    · rw [if_neg h2] at hb
      by_cases h3 : n < 65536
      · rw [if_pos h3] at hb
        simp at hb
        rcases hb with rfl | rfl | rfl <;> omega
      · rw [if_neg h3] at hb
        simp at hb
        rcases hb with rfl | rfl | rfl | rfl <;> omega

theorem mem_pctEncodeBytes (bs : List Nat) (x : Char) (hx : x ∈ pctEncodeBytes bs) :
    x = '%' ∨ ∃ b ∈ bs, x = hexDig (b / 16) ∨ x = hexDig (b % 16) := by
  induction bs with
  | nil => simp [pctEncodeBytes] at hx
  | cons b t ih =>
    simp only [pctEncodeBytes, List.mem_cons] at hx
    rcases hx with rfl | rfl | rfl | hx
    · exact Or.inl rfl
    · exact Or.inr ⟨b, List.mem_cons_self _ _, Or.inl rfl⟩
    · exact Or.inr ⟨b, List.mem_cons_self _ _, Or.inr rfl⟩
    · rcases ih hx with h | ⟨b2, hb2, h⟩
      · exact Or.inl h
      · exact Or.inr ⟨b2, List.mem_cons_of_mem _ hb2, h⟩

/-- Every character of an encoded component is an unreserved character,
a percent sign, or a hexadecimal digit of a value below sixteen. -/
theorem mem_encodeURIComponent (l : List Char) (x : Char)
    (hx : x ∈ encodeURIComponent l) :
    (∃ c ∈ l, x = c ∧ unreservedChar c = true) ∨ x = '%' ∨ ∃ m < 16, x = hexDig m := by
  induction l with
  | nil => simp [encodeURIComponent] at hx
  | cons c t ih =>
    simp only [encodeURIComponent, List.mem_append] at hx
    rcases hx with hx | hx
    · rw [encodeChar] at hx
      by_cases hu : unreservedChar c
      · rw [if_pos hu] at hx
        simp at hx
        exact Or.inl ⟨c, List.mem_cons_self _ _, hx, hu⟩
      · rw [if_neg hu] at hx
        rcases mem_pctEncodeBytes _ _ hx with h | ⟨b, hb, h⟩
        · exact Or.inr (Or.inl h)
        · have hval : c.toNat < 1114112 := by
            have hv : c.toNat < 55296 ∨ (57343 < c.toNat ∧ c.toNat < 1114112) := c.valid
            omega
          have hb256 : b < 256 := utf8Bytes_lt _ hval b hb
          rcases h with rfl | rfl
          · exact Or.inr (Or.inr ⟨b / 16, by omega, rfl⟩)
          · exact Or.inr (Or.inr ⟨b % 16, by omega, rfl⟩)
    · rcases ih hx with ⟨c2, hc2, h⟩ | h
      · exact Or.inl ⟨c2, List.mem_cons_of_mem _ hc2, h⟩
      · exact Or.inr h

theorem hexDig_safe : ∀ m < 16, (hexDig m).isWhitespace = false ∧
    hexDig m ≠ '/' ∧ hexDig m ≠ '?' ∧ hexDig m ≠ '#' := by decide

/-- Characters of an encoded component are never whitespace, slash,
question mark or hash mark. -/
theorem encodeURIComponent_safe (l : List Char) (x : Char)
    (hx : x ∈ encodeURIComponent l) :
    x.isWhitespace = false ∧ x ≠ '/' ∧ x ≠ '?' ∧ x ≠ '#' := by
  rcases mem_encodeURIComponent l x hx with ⟨c2, _, hxe, hu⟩ | hxe | ⟨m, hm, hxe⟩
  · rw [hxe]
    refine ⟨?_, ?_, ?_, ?_⟩
    · by_contra hws
      simp only [Bool.not_eq_false] at hws
      have hds : ((c2 = ' ' ∨ c2 = '\t') ∨ c2 = '\x0d') ∨ c2 = '\n' := by
        simpa [Char.isWhitespace, Bool.or_eq_true, decide_eq_true_eq] using hws
      rcases hds with ((rfl | rfl) | rfl) | rfl <;> exact absurd hu (by decide)
    · intro he
      rw [he] at hu
      exact absurd hu (by decide)
    · intro he
      rw [he] at hu
      exact absurd hu (by decide)
    · intro he
      rw [he] at hu
      exact absurd hu (by decide)
  · rw [hxe]
    exact ⟨by decide, by decide, by decide, by decide⟩
  · rw [hxe]
    exact hexDig_safe m hm

theorem utf8Bytes_ne_nil (n : Nat) : utf8Bytes n ≠ [] := by
  rw [utf8Bytes]
  by_cases h1 : n < 128
  · simp [h1]
  · by_cases h2 : n < 2048
    · simp [h1, h2]
    · by_cases h3 : n < 65536
      · simp [h1, h2, h3]
      · simp [h1, h2, h3]

theorem encodeChar_ne_nil (c : Char) : encodeChar c ≠ [] := by
  rw [encodeChar]
  by_cases hu : unreservedChar c
  · simp [hu]
  · rw [if_neg hu]
    rcases hb : utf8Bytes c.toNat with _ | ⟨b, bs⟩
    · exact absurd hb (utf8Bytes_ne_nil _)
    · simp [pctEncodeBytes]

theorem encodeURIComponent_ne_nil (l : List Char) (h : l ≠ []) :
    encodeURIComponent l ≠ [] := by
  cases l with
  | nil => exact absurd rfl h
  | cons c t =>
    rw [encodeURIComponent]
    intro he
    rcases List.append_eq_nil.mp he with ⟨h1, _⟩
    exact encodeChar_ne_nil c h1

theorem normalizeHash_buildHash (id : List Char) (h : id ≠ []) :
    normalizeHash (buildHashForNote id) =
      '/' :: 'n' :: 'o' :: 't' :: 'e' :: '/' :: encodeURIComponent id := by
  rw [buildHashForNote, if_neg h]
  have hall : ∀ x ∈ ('#' :: '/' :: 'n' :: 'o' :: 't' :: 'e' :: '/' ::
      encodeURIComponent id), x.isWhitespace = false := by
    intro x hx
    simp only [List.mem_cons] at hx
    rcases hx with rfl | rfl | rfl | rfl | rfl | rfl | rfl | hx
    · decide
    · decide
    · decide
    · decide
    · decide
    · decide
    · decide
    · exact (encodeURIComponent_safe id x hx).1
  have hL : (['#', '/', 'n', 'o', 't', 'e', '/'] ++ encodeURIComponent id) =
      '#' :: '/' :: 'n' :: 'o' :: 't' :: 'e' :: '/' :: encodeURIComponent id := rfl
  rw [hL]
  rw [normalizeHash]
  rw [trimCharList_all_false _ hall]
  simp

theorem bang_true_of_props (x : Char) (h1 : x ≠ '/') (h2 : x ≠ '?') (h3 : x ≠ '#') :
    (!(x = '/' || x = '?' || x = '#')) = true := by
  simp [h1, h2, h3]

theorem parseHash_buildHash (id : List Char) (h : id ≠ []) :
    parseHash (buildHashForNote id) = some (Route.note id) := by
  rw [parseHash, normalizeHash_buildHash id h]
  rw [if_neg (by simp)]
  have hseg : (encodeURIComponent id).takeWhile
      (fun c => !(c = '/' || c = '?' || c = '#')) = encodeURIComponent id := by
    refine takeWhile_all_true _ _ ?_
    intro x hx
    obtain ⟨-, p1, p2, p3⟩ := encodeURIComponent_safe id x hx
    exact bang_true_of_props x p1 p2 p3
  simp only [matchNote, hseg]
  rw [if_neg (encodeURIComponent_ne_nil id h)]
  show Option.map Route.note (decodeURIComponent (encodeURIComponent id)) =
    some (Route.note id)
  rw [decode_encode]
  rfl

theorem parseHash_home_of_no_match (s : List Char)
    (hm : matchNote (normalizeHash s) = none) : parseHash s = some Route.home := by
  rw [parseHash]
  by_cases hn : normalizeHash s = ['/'] ∨ normalizeHash s = []
  · rw [if_pos hn]
  · rw [if_neg hn, hm]

/-! ## Idempotence of trimming -/

theorem dropWhile_head_not {α : Type} (p : α → Bool) (l : List α) (x : α)
    (hx : (l.dropWhile p).head? = some x) : p x = false := by
  induction l with
  | nil => simp [List.dropWhile] at hx
  | cons a t ih =>
    rw [List.dropWhile_cons] at hx
    by_cases hp : p a = true
    · rw [if_pos hp] at hx
      exact ih hx
    · rw [if_neg hp] at hx
      simp only [List.head?_cons, Option.some.injEq] at hx
      rw [← hx]
      simpa using hp

theorem dropWhile_of_head_not {α : Type} (p : α → Bool) (l : List α)
    (h : ∀ x, l.head? = some x → p x = false) : l.dropWhile p = l := by
  cases l with
  | nil => rfl
  | cons a t =>
    rw [List.dropWhile_cons, if_neg (by simp [h a rfl])]

theorem dropWhile_dropWhile {α : Type} (p : α → Bool) (l : List α) :
    (l.dropWhile p).dropWhile p = l.dropWhile p :=
  dropWhile_of_head_not p _ (fun x hx => dropWhile_head_not p l x hx)

theorem getLast?_dropWhile {α : Type} (p : α → Bool) (m : List α)
    (h : m.dropWhile p ≠ []) : (m.dropWhile p).getLast? = m.getLast? := by
  induction m with
  | nil => simp [List.dropWhile] at h
  | cons a t ih =>
    rw [List.dropWhile_cons] at h ⊢
    by_cases hp : p a = true
    · rw [if_pos hp] at h ⊢
      cases t with
      | nil => simp [List.dropWhile] at h
      | cons b u =>
        rw [List.getLast?_cons_cons]
        exact ih h
    · rw [if_neg hp]

theorem trimCharList_idem (l : List Char) :
    trimCharList (trimCharList l) = trimCharList l := by
  set ws := Char.isWhitespace with hws
  set A := l.dropWhile ws with hA
  set B := A.reverse.dropWhile ws with hB
  have hr : trimCharList l = B.reverse := rfl
  rw [hr]
  by_cases hBn : B = []
  · rw [hBn]
    rfl
  · have h1 : B.reverse.dropWhile ws = B.reverse := by
      refine dropWhile_of_head_not ws _ ?_
      intro x hx
      rw [List.head?_reverse] at hx
      rw [hB] at hx
      rw [getLast?_dropWhile ws A.reverse (by rw [← hB]; exact hBn)] at hx
      rw [List.getLast?_reverse] at hx
      exact dropWhile_head_not ws l x (by rw [← hA]; exact hx)
    rw [trimCharList, h1, List.reverse_reverse, hB, dropWhile_dropWhile]

theorem strTrim_idem (s : String) : strTrim (strTrim s) = strTrim s := by
  rw [strTrim, strTrim]
  exact congrArg String.mk (trimCharList_idem s.data)

/-! ## Claims -/

/-- C1 counterexample: from the initial state, a SELECT_NOTE whose id is
not a key of notesById succeeds and yields a state whose selection
points to no note, violating invariant 2. -/
theorem c1_counterexample :
    reducer 0 initialState ⟨"SELECT_NOTE", .obj { id := some ("x") }⟩ =
      .ok { notesById := [], order := [], selectedNoteId := some ("x"),
            loading := false, error := none, query := "" } ∧
    ¬ inv { notesById := [], order := [], selectedNoteId := some ("x"),
            loading := false, error := none, query := "" } :=
  ⟨rfl, by decide⟩

/-- C1 (amended): the initial state satisfies invariants 1 and 2, and
every reducer transition preserves them provided a SELECT_NOTE carries
null or an id present in notesById and an INIT_LOAD notes array has
pairwise distinct ids; all other transitions preserve the invariants
unconditionally.  Without the two guards the invariants fail (see the counterexample). -/
theorem c1_invariant_preservation :
    inv initialState ∧
    ∀ (now : Nat) (s : RState) (a : RAction) (s1 : RState),
      inv s → goodAction s a = true → reducer now s a = .ok s1 → inv s1 := by
  constructor
  · exact ⟨List.nodup_nil, by simp [initialState], by simp [initialState], rfl⟩
  · intro now s a s1 hs hg hr
    obtain ⟨ty, pl⟩ := a
    by_cases h1 : ty = "INIT_LOAD"
    · subst h1
      cases pl with
      | missing =>
        simp only [reducer] at hr
        injection hr with hr
        rw [← hr]
        exact inv_initLoadCore s [] (by simp)
      | obj f =>
        cases hn : f.notes with
        | arr l =>
          simp only [reducer, hn] at hr
          injection hr with hr
          rw [← hr]
          apply inv_initLoadCore
          simp only [goodAction, hn] at hg
          exact of_decide_eq_true hg
        | absent => simp [reducer, hn] at hr
        | nonArray => simp [reducer, hn] at hr
    · by_cases h2 : ty = "SELECT_NOTE"
      · subst h2
        cases pl with
        | missing => simp [reducer] at hr
        | obj f =>
          simp only [reducer] at hr
          injection hr with hr
          rw [← hr]
          refine ⟨hs.1, hs.2.1, hs.2.2.1, ?_⟩
          show Option.all _ f.id = true
          cases hid : f.id with
          | none => rfl
          | some sid =>
            simp only [goodAction, hid] at hg
            simpa [Option.all] using hg
      · by_cases h3 : ty = "CREATE_NOTE"
        · subst h3
          cases pl with
          | missing => simp [reducer] at hr
          | obj f =>
            cases hn : f.note with
            | absent =>
              simp only [reducer, hn] at hr
              injection hr with hr
              rw [← hr]
              exact hs
            | note n =>
              by_cases hid : n.id = ""
              · simp only [reducer, hn, hid, if_pos] at hr
                injection hr with hr
                rw [← hr]
                exact hs
              · simp only [reducer, hn, if_neg hid] at hr
                injection hr with hr
                rw [← hr]
                exact inv_createCore now s n hs
        · by_cases h4 : ty = "UPDATE_NOTE"
          · subst h4
            cases pl with
            | missing => simp [reducer] at hr
            | obj f =>
              cases hid : f.id with
              | none =>
                simp only [reducer, hid] at hr
                injection hr with hr
                rw [← hr]
                exact hs
              | some id0 =>
                cases hex : alookup s.notesById id0 with
                | none =>
                  simp only [reducer, hid, hex] at hr
                  injection hr with hr
                  rw [← hr]
                  exact hs
                | some existing =>
                  simp only [reducer, hid, hex] at hr
                  injection hr with hr
                  rw [← hr]
                  exact inv_updateCore now s id0 existing f.updates hs
          · by_cases h5 : ty = "DELETE_NOTE"
            · subst h5
              cases pl with
              | missing => simp [reducer] at hr
              | obj f =>
                cases hid : f.id with
                | none =>
                  simp only [reducer, hid] at hr
                  injection hr with hr
                  rw [← hr]
                  exact hs
                | some id0 =>
                  cases hex : alookup s.notesById id0 with
                  | none =>
                    simp only [reducer, hid, hex] at hr
                    injection hr with hr
                    rw [← hr]
                    exact hs
                  | some existing =>
                    simp only [reducer, hid, hex] at hr
                    injection hr with hr
                    rw [← hr]
                    exact inv_deleteCore s id0 hs
            · by_cases h6 : ty = "SET_SEARCH_QUERY"
              · subst h6
                cases pl with
                | missing => simp [reducer] at hr
                | obj f =>
                  simp only [reducer] at hr
                  injection hr with hr
                  rw [← hr]
                  exact ⟨hs.1, hs.2.1, hs.2.2.1, hs.2.2.2⟩
              · by_cases h7 : ty = "SET_LOADING"
                · subst h7
                  cases pl with
                  | missing => simp [reducer] at hr
                  | obj f =>
                    simp only [reducer] at hr
                    injection hr with hr
                    rw [← hr]
                    exact ⟨hs.1, hs.2.1, hs.2.2.1, hs.2.2.2⟩
                · by_cases h8 : ty = "SET_ERROR"
                  · subst h8
                    cases pl with
                    | missing => simp [reducer] at hr
                    | obj f =>
                      simp only [reducer] at hr
                      injection hr with hr
                      rw [← hr]
                      exact ⟨hs.1, hs.2.1, hs.2.2.1, hs.2.2.2⟩
                  · simp only [reducer, h1, h2, h3, h4, h5, h6, h7, h8] at hr
                    injection hr with hr
                    rw [← hr]
                    exact hs

/-- C1 witness: the preservation theorem applied to a CREATE_NOTE from
the initial state. -/
theorem c1_witness :
    inv { notesById := [("a",
            { id := "a", title := some (""), content := some (""),
              createdAt := some 0, updatedAt := some 0 })],
          order := ["a"], selectedNoteId := some ("a"),
          loading := false, error := none, query := "" } :=
  c1_invariant_preservation.2 0 initialState
    ⟨"CREATE_NOTE", .obj { note := .note { id := "a" } }⟩ _
    (by decide) (by decide) rfl

/-- C2 counterexample: two notes with equal updatedAt and different
createdAt.  The claimed tie-break says the one with the later createdAt
(note b) must precede, but INIT_LOAD keeps the input order: the order is
a before b, refuting the claim at this input. -/
theorem c2_counterexample :
    ¬ (∀ (a b : RNote) (s : RState), a.updatedAt = b.updatedAt →
        a.createdAt.getD 0 < b.createdAt.getD 0 →
        (initLoadCore s [a, b]).order = [b.id, a.id]) := by
  intro hcl
  have h := hcl ⟨"a", none, none, some 1, some 5⟩ ⟨"b", none, none, some 9, some 5⟩
    initialState rfl (by decide)
  revert h
  decide

/-- C2 (amended): INIT_LOAD's order is the input sorted by the single
key updatedAt-else-createdAt-else-zero, descending and stably: the
result is a permutation, pairwise key-descending, and every equal-key
class keeps its relative input order (so equal updatedAt keeps input
order; createdAt is never consulted as a tie-break).  The adapter's
sortNotesByRecent is the same comparator and is covered by the same
sortDescBy facts. -/
theorem c2_sort_descending_stable (s : RState) (notes : List RNote) :
    (initLoadCore s notes).order = (sortDescBy keyTime notes).map (fun n => n.id) ∧
    List.Perm (sortDescBy keyTime notes) notes ∧
    ((sortDescBy keyTime notes).Pairwise fun a b => keyTime b ≤ keyTime a) ∧
    ∀ t, (sortDescBy keyTime notes).filter (fun n => keyTime n = t) =
      notes.filter (fun n => keyTime n = t) :=
  ⟨rfl, sortDescBy_perm keyTime notes, sortDescBy_sorted keyTime notes,
    fun t => sortDescBy_stable keyTime notes t⟩

/-- C3 counterexample: dispatching SELECT_NOTE with a missing payload
throws (destructuring undefined), refuting that the reducer never
throws. -/
theorem c3_counterexample :
    reducer 0 initialState ⟨"SELECT_NOTE", .missing⟩ = .error () := rfl

/-- C3 (amended): unknown action types are the identity transition for
every payload, and the reducer does not throw provided the payload is an
object and, for INIT_LOAD, its notes field is an array (INIT_LOAD also
tolerates a missing payload).  With a missing payload on the other seven
known types the reducer throws (see the counterexample). -/
theorem c3_unknown_identity_and_no_throw :
    (∀ (now : Nat) (s : RState) (ty : String) (pl : JPayload),
      ty ∉ (["INIT_LOAD", "SELECT_NOTE", "CREATE_NOTE", "UPDATE_NOTE", "DELETE_NOTE",
        "SET_SEARCH_QUERY", "SET_LOADING", "SET_ERROR"] : List String) →
      reducer now s ⟨ty, pl⟩ = .ok s) ∧
    (∀ (now : Nat) (s : RState) (ty : String) (f : PFields),
      (ty = "INIT_LOAD" → ∃ l, f.notes = NotesField.arr l) →
      (reducer now s ⟨ty, .obj f⟩).isOk = true) ∧
    (∀ (now : Nat) (s : RState) (pl : JPayload),
      (reducer now s ⟨"INIT_LOAD", pl⟩).isOk =
        (match pl with
         | .missing => true
         | .obj f => match f.notes with | .arr _ => true | _ => false)) := by
  refine ⟨?_, ?_, ?_⟩
  · intro now s ty pl hty
    simp only [List.mem_cons, List.not_mem_nil, or_false, not_or] at hty
    obtain ⟨h1, h2, h3, h4, h5, h6, h7, h8⟩ := hty
    simp [reducer, h1, h2, h3, h4, h5, h6, h7, h8]
  · intro now s ty f hin
    by_cases h1 : ty = "INIT_LOAD"
    · subst h1
      obtain ⟨l, hl⟩ := hin rfl
      simp [reducer, hl, Except.isOk, Except.toBool]
    · by_cases h2 : ty = "SELECT_NOTE"
      · subst h2
        simp [reducer, Except.isOk, Except.toBool]
      · by_cases h3 : ty = "CREATE_NOTE"
        · subst h3
          cases hn : f.note with
          | absent => simp [reducer, hn, Except.isOk, Except.toBool]
          | note n =>
            by_cases hid : n.id = "" <;> simp [reducer, hn, hid, Except.isOk, Except.toBool]
        · by_cases h4 : ty = "UPDATE_NOTE"
          · subst h4
            cases hid : f.id with
            | none => simp [reducer, hid, Except.isOk, Except.toBool]
            | some id0 =>
              cases hex : alookup s.notesById id0 <;>
                simp [reducer, hid, hex, Except.isOk, Except.toBool]
          · by_cases h5 : ty = "DELETE_NOTE"
            · subst h5
              cases hid : f.id with
              | none => simp [reducer, hid, Except.isOk, Except.toBool]
              | some id0 =>
                cases hex : alookup s.notesById id0 <;>
                  simp [reducer, hid, hex, Except.isOk, Except.toBool]
            · by_cases h6 : ty = "SET_SEARCH_QUERY"
              · subst h6
                simp [reducer, Except.isOk, Except.toBool]
              · by_cases h7 : ty = "SET_LOADING"
                · subst h7
                  simp [reducer, Except.isOk, Except.toBool]
                · by_cases h8 : ty = "SET_ERROR"
                  · subst h8
                    simp [reducer, Except.isOk, Except.toBool]
                  · simp [reducer, h1, h2, h3, h4, h5, h6, h7, h8, Except.isOk, Except.toBool]
  · intro now s pl
    cases pl with
    | missing => simp [reducer, Except.isOk, Except.toBool]
    | obj f =>
      cases hn : f.notes with
      | absent => simp [reducer, hn, Except.isOk, Except.toBool]
      | arr l => simp [reducer, hn, Except.isOk, Except.toBool]
      | nonArray => simp [reducer, hn, Except.isOk, Except.toBool]

/-- C3 witness: an unknown type with a missing payload is the identity,
and a SELECT_NOTE with an empty object payload succeeds. -/
theorem c3_witness :
    reducer 0 initialState ⟨"UNKNOWN_TYPE", .missing⟩ = .ok initialState ∧
    (reducer 0 initialState ⟨"SELECT_NOTE", .obj {}⟩).isOk = true ∧
    (reducer 0 initialState ⟨"INIT_LOAD", .obj {}⟩).isOk = false :=
  ⟨c3_unknown_identity_and_no_throw.1 0 initialState ("UNKNOWN_TYPE") .missing (by decide),
   c3_unknown_identity_and_no_throw.2.1 0 initialState ("SELECT_NOTE") {} (by simp),
   c3_unknown_identity_and_no_throw.2.2 0 initialState (.obj {})⟩

/-- Success analysis of applyUpdates: the merged note keeps the stored
id (trimmed) and createdAt, takes the given title and content with the
empty-string default, and stamps updatedAt with the clock. -/
theorem applyUpdates_ok (existing : SNoteRaw) (t c : Option String) (now : Nat)
    (u : SNote) (h : applyUpdates existing t c now = .ok u) :
    u.id = strTrim existing.id ∧ u.title = t.getD ("") ∧ u.content = c.getD ("") ∧
    u.createdAt = existing.createdAt.getD now ∧ u.updatedAt = now := by
  simp only [applyUpdates, normalizeNote] at h
  by_cases hni : strTrim existing.id = ""
  · rw [if_pos hni] at h
    exact absurd h (by simp)
  · rw [if_neg hni] at h
    injection h with h
    rw [← h]
    exact ⟨rfl, rfl, rfl, rfl, rfl⟩

/-- Failure analysis of applyUpdates: it can only throw the blank-id
normalization error, and only when the stored id trims to blank. -/
theorem applyUpdates_error (existing : SNoteRaw) (t c : Option String) (now : Nat)
    (e : ApiErr) (h : applyUpdates existing t c now = .error e) :
    e = .noteNeedsId ∧ strTrim existing.id = "" := by
  simp only [applyUpdates, normalizeNote] at h
  by_cases hni : strTrim existing.id = ""
  · rw [if_pos hni] at h
    injection h with h
    exact ⟨h.symm, hni⟩
  · rw [if_neg hni] at h
    exact absurd h (by simp)

/-- C4 counterexample: updating a missing id with a non-object updates
argument rejects with InvalidInput, not NotFound, although no note with
that id exists — the updates check precedes the existence check, so the
claimed equivalence (rejects NotFound iff id absent) fails. -/
theorem c4_counterexample :
    updateNote ("missing") .nonObject 0
        [("a", { id := "a", createdAt := some 1, updatedAt := some 1 })] =
      (.error .invalidInput,
        [("a", { id := "a", createdAt := some 1, updatedAt := some 1 })]) ∧
    alookup [("a", ({ id := "a", createdAt := some 1, updatedAt := some 1 } : SNoteRaw))]
        "missing" = none ∧
    ApiErr.invalidInput ≠ ApiErr.notFound :=
  ⟨rfl, rfl, by decide⟩

/-- C4 (amended): updateNote validates in source order.  A blank id
rejects first; a non-object updates argument rejects with InvalidInput
before the existence check; given a nonblank id and an object argument
it rejects with NotFound exactly when no note with the trimmed id is
stored (for a stored note with a well-formed id).  On success only
title and content are merged (each only when the field is a string), id
and createdAt come from the stored note, updatedAt is stamped with the
clock, and the updated note is persisted under the id.  Every rejection
leaves the stored map unchanged. -/
theorem c4_update_validation_and_merge (id : String) (updates : UpdArg) (now : Nat)
    (map : SMap) :
    (∀ e, (updateNote id updates now map).1 = .error e →
      (updateNote id updates now map).2 = map) ∧
    (strTrim id ≠ "" → updates = .nonObject →
      (updateNote id updates now map).1 = .error .invalidInput) ∧
    (∀ tf cf, updates = .obj tf cf → strTrim id ≠ "" →
      (∀ existing, alookup map (strTrim id) = some existing →
        strTrim existing.id ≠ "") →
      ((updateNote id updates now map).1 = .error .notFound ↔
        alookup map (strTrim id) = none)) ∧
    (∀ u, (updateNote id updates now map).1 = .ok u →
      ∃ tf cf existing, updates = .obj tf cf ∧
        alookup map (strTrim id) = some existing ∧
        u.id = strTrim existing.id ∧
        u.createdAt = existing.createdAt.getD now ∧
        u.updatedAt = now ∧
        u.title = (chooseField tf existing.title).getD ("") ∧
        u.content = (chooseField cf existing.content).getD ("") ∧
        (updateNote id updates now map).2 = ainsert map (strTrim id) u.toRaw) := by
  by_cases hid : strTrim id = ""
  · refine ⟨fun e _ => by simp [updateNote, hid], fun h => absurd hid h,
      fun tf cf _ h => absurd hid h, fun u hu => ?_⟩
    simp only [updateNote, hid, if_pos] at hu
    exact absurd hu (by simp)
  · cases updates with
    | nonObject =>
      refine ⟨fun e _ => by simp [updateNote, hid], fun _ _ => by simp [updateNote, hid],
        fun tf cf h => absurd h (by simp), fun u hu => ?_⟩
      simp only [updateNote, hid, if_neg] at hu
      exact absurd hu (by simp)
    | obj tf cf =>
      cases hex : alookup map (strTrim id) with
      | none =>
        refine ⟨fun e _ => by simp [updateNote, hid, hex],
          fun _ h => absurd h (by simp),
          fun tf2 cf2 _ _ _ => by simp [updateNote, hid, hex], fun u hu => ?_⟩
        simp only [updateNote, hid, if_neg, hex] at hu
        exact absurd hu (by simp)
      | some existing =>
        cases hup : applyUpdates existing (chooseField tf existing.title)
            (chooseField cf existing.content) now with
        | error e2 =>
          obtain ⟨rfl, hni⟩ := applyUpdates_error _ _ _ _ _ hup
          refine ⟨fun e _ => by simp [updateNote, hid, hex, hup],
            fun _ h => absurd h (by simp),
            fun tf2 cf2 heq _ hwf => ?_, fun u hu => ?_⟩
          · obtain ⟨rfl, rfl⟩ : tf2 = tf ∧ cf2 = cf := by
              injection heq with htf hcf
              exact ⟨htf.symm, hcf.symm⟩
            exact absurd (hwf existing rfl) (by simp [hni])
          · simp only [updateNote, hid, if_neg, hex, hup] at hu
            exact absurd hu (by simp)
        | ok u0 =>
          obtain ⟨hui, hut, huc, hucr, huu⟩ := applyUpdates_ok _ _ _ _ _ hup
          refine ⟨fun e he => ?_, fun _ h => absurd h (by simp),
            fun tf2 cf2 heq _ _ => ?_, fun u hu => ?_⟩
          · simp only [updateNote, hid, if_neg, hex, hup] at he
            exact absurd he (by simp)
          · constructor
            · intro h
              simp only [updateNote, hid, if_neg, hex, hup] at h
              exact absurd h (by simp)
            · intro h
              exact absurd h (by simp)
          · have hu0 : u0 = u := by
              simp only [updateNote, hid, if_neg, hex, hup] at hu
              injection hu
            subst hu0
            exact ⟨tf, cf, existing, rfl, rfl, hui, hucr, huu, hut, huc,
              by simp [updateNote, hid, hex, hup]⟩

/-- C4 witness: the amended theorem at a one-note store — a NotFound
rejection for an absent id with an object argument, leaving the map
unchanged. -/
theorem c4_witness :
    ((updateNote ("missing") (.obj .absent .absent) 0
        [("a", { id := "a", createdAt := some 1, updatedAt := some 1 })]).1 =
          .error .notFound ↔
      alookup [("a", ({ id := "a", createdAt := some 1, updatedAt := some 1 } : SNoteRaw))]
        (strTrim ("missing")) = none) ∧
    (updateNote ("missing") (.obj .absent .absent) 0
        [("a", { id := "a", createdAt := some 1, updatedAt := some 1 })]).2 =
      [("a", { id := "a", createdAt := some 1, updatedAt := some 1 })] :=
  ⟨(c4_update_validation_and_merge ("missing") (.obj .absent .absent) 0
      [("a", { id := "a", createdAt := some 1, updatedAt := some 1 })]).2.2.1
      .absent .absent rfl (by decide)
      (fun ex hex => absurd hex (by simp [alookup, strTrim, trimCharList])),
   (c4_update_validation_and_merge ("missing") (.obj .absent .absent) 0
      [("a", { id := "a", createdAt := some 1, updatedAt := some 1 })]).1
      .notFound rfl⟩

/-- Success analysis of buildNewNote: the result id is trimmed and
nonblank, title and content are the string arguments or empty, and both
timestamps are the clock value, whatever the argument carried. -/
theorem buildNewNote_ok (arg : CreateArg) (g : String) (now : Nat) (u : SNote)
    (h : buildNewNote arg g now = .ok u) :
    strTrim u.id = u.id ∧ u.id ≠ "" ∧ u.title = arg.title.getD ("") ∧
    u.content = arg.content.getD ("") ∧ u.createdAt = now ∧ u.updatedAt = now := by
  simp only [buildNewNote, normalizeNote] at h
  by_cases hni : strTrim (strTrim (match arg.id with
      | some s => if s = "" then g else s
      | none => g)) = ""
  · rw [if_pos hni] at h
    exact absurd h (by simp)
  · rw [if_neg hni] at h
    injection h with h
    rw [← h]
    exact ⟨strTrim_idem _, hni, rfl, rfl, rfl, rfl⟩

/-- Normalizing the stored image of a normalized note gives the note
back, for any clock value. -/
theorem normalizeNote_toRaw (u : SNote) (now2 : Nat) (hid : strTrim u.id = u.id)
    (hne : u.id ≠ "") : normalizeNote u.toRaw now2 = .ok u := by
  simp only [normalizeNote, SNote.toRaw]
  rw [hid, if_neg hne]
  exact rfl

/-- C6 counterexample: a store holding notes a and b, an absent argument
id, and a generator that yields the colliding id a and then b.  The
single regeneration is persisted unconditionally and overwrites the
existing note b. -/
theorem c6_counterexample :
    createNote {} "a" "b" "g" 5
        [("a", { id := "a", title := some ("A"), createdAt := some 1, updatedAt := some 1 }),
         ("b", { id := "b", title := some ("B"), createdAt := some 2, updatedAt := some 2 })] =
      (.ok { id := "b", title := "", content := "", createdAt := 5, updatedAt := 5 },
       [("a", { id := "a", title := some ("A"), createdAt := some 1, updatedAt := some 1 }),
        ("b", { id := "b", title := some (""), content := some (""), createdAt := some 5, updatedAt := some 5 })]) ∧
    alookup [("a", ({ id := "a", title := some ("A"), createdAt := some 1, updatedAt := some 1 } : SNoteRaw)),
        ("b", { id := "b", title := some ("B"), createdAt := some 2, updatedAt := some 2 })] "b" =
      some { id := "b", title := some ("B"), createdAt := some 2, updatedAt := some 2 } ∧
    ({ id := "b", title := some ("B"), createdAt := some 2, updatedAt := some 2 } : SNoteRaw) ≠
      { id := "b", title := some (""), content := some (""), createdAt := some 5, updatedAt := some 5 } :=
  ⟨rfl, rfl, by decide⟩

/-- C6 (amended): a successful createNote persists its result under the
result id; getNote of that id returns a note equal to the create result
for any later clock.  When the first built id is fresh the note is
inserted without touching any existing note; when it collides, exactly
one regeneration is attempted and its result is persisted
unconditionally — overwriting whatever note holds the regenerated id
(the code never checks the second id, refuting never-overwrite). -/
theorem c6_create_roundtrip_and_single_regen (arg : CreateArg) (g1 g2 g3 : String)
    (now : Nat) (map : SMap) (u : SNote) (map2 : SMap)
    (h : createNote arg g1 g2 g3 now map = (.ok u, map2)) :
    map2 = ainsert map u.id u.toRaw ∧
    alookup map2 u.id = some u.toRaw ∧
    (∀ now2, getNote u.id now2 map2 = .ok (some u)) ∧
    (∀ u1, buildNewNote arg g1 now = .ok u1 → (alookup map u1.id).isSome = false →
      u = u1 ∧ (alookup map u.id).isSome = false) ∧
    (∀ u1, buildNewNote arg g1 now = .ok u1 → (alookup map u1.id).isSome = true →
      buildNewNote { arg with id := some g2 } g3 now = .ok u) := by
  rw [createNote] at h
  cases hb1 : buildNewNote arg g1 now with
  | error e =>
    simp only [hb1] at h
    exact absurd h (by simp)
  | ok newNote =>
    simp only [hb1] at h
    by_cases hcol : (alookup map newNote.id).isSome = true
    · rw [if_pos hcol] at h
      cases hb2 : buildNewNote { arg with id := some g2 } g3 now with
      | error e =>
        simp only [hb2] at h
        exact absurd h (by simp)
      | ok regen =>
        simp only [hb2] at h
        rw [Prod.mk.injEq] at h
        obtain ⟨h1, h2⟩ := h
        injection h1 with h1
        subst h1
        subst h2
        obtain ⟨hti, hne, -, -, -, -⟩ := buildNewNote_ok _ _ _ _ hb2
        refine ⟨rfl, alookup_ainsert_self _ _ _, ?_, ?_, ?_⟩
        · intro now2
          rw [getNote]
          simp only [hti]
          rw [if_neg hne, alookup_ainsert_self]
          show Except.map some (normalizeNote _ now2) = Except.ok (some _)
          rw [normalizeNote_toRaw _ now2 hti hne]
          rfl
        · intro u1 hu1 hfresh
          injection hu1 with hu1
          subst hu1
          rw [hcol] at hfresh
          exact absurd hfresh (by simp)
        · intro u1 hu1 _
          rfl
    · rw [if_neg hcol] at h
      rw [Prod.mk.injEq] at h
      obtain ⟨h1, h2⟩ := h
      injection h1 with h1
      subst h1
      subst h2
      obtain ⟨hti, hne, -, -, -, -⟩ := buildNewNote_ok _ _ _ _ hb1
      refine ⟨rfl, alookup_ainsert_self _ _ _, ?_, ?_, ?_⟩
      · intro now2
        rw [getNote]
        simp only [hti]
        rw [if_neg hne, alookup_ainsert_self]
        show Except.map some (normalizeNote _ now2) = Except.ok (some _)
        rw [normalizeNote_toRaw _ now2 hti hne]
        rfl
      · intro u1 hu1 hfresh
        injection hu1 with hu1
        subst hu1
        exact ⟨rfl, by simpa using hcol⟩
      · intro u1 hu1 hcol2
        injection hu1 with hu1
        subst hu1
        exact absurd hcol2 hcol

/-- C6 witness: a fresh create into the empty store, with the round
trip read back at a later clock. -/
theorem c6_witness :
    getNote ("g") 9 (createNote {} "g" "h" "i" 5 []).2 =
      .ok (some { id := "g", title := "", content := "", createdAt := 5, updatedAt := 5 }) :=
  ((c6_create_roundtrip_and_single_regen {} "g" "h" "i" 5 []
    { id := "g", title := "", content := "", createdAt := 5, updatedAt := 5 }
    [("g", { id := "g", title := some (""), content := some (""), createdAt := some 5, updatedAt := some 5 })]
    rfl).2.2.1) 9

/-- C9: the adapter's Create stamps createdAt and updatedAt with the
clock and with each other, ignoring caller-supplied timestamps in the
argument (buildNewNote never reads them); the store's CREATE_NOTE
transition instead honors provided timestamps, storing them verbatim. -/
theorem c9_create_timestamps (arg : CreateArg) (g1 g2 g3 : String) (now : Nat)
    (map : SMap) (u : SNote) (map2 : SMap)
    (h : createNote arg g1 g2 g3 now map = (.ok u, map2)) :
    u.createdAt = now ∧ u.updatedAt = now ∧
    (∀ (s : RState) (n : RNote) (t1 t2 : Nat) (s1 : RState),
      n.id ≠ "" → n.createdAt = some t1 → n.updatedAt = some t2 →
      reducer now s ⟨"CREATE_NOTE", .obj { note := .note n }⟩ = .ok s1 →
      ∃ n1, alookup s1.notesById n.id = some n1 ∧
        n1.createdAt = some t1 ∧ n1.updatedAt = some t2) := by
  have hts : u.createdAt = now ∧ u.updatedAt = now := by
    rw [createNote] at h
    cases hb1 : buildNewNote arg g1 now with
    | error e =>
      simp only [hb1] at h
      exact absurd h (by simp)
    | ok newNote =>
      simp only [hb1] at h
      by_cases hcol : (alookup map newNote.id).isSome = true
      · rw [if_pos hcol] at h
        cases hb2 : buildNewNote { arg with id := some g2 } g3 now with
        | error e =>
          simp only [hb2] at h
          exact absurd h (by simp)
        | ok regen =>
          simp only [hb2] at h
          rw [Prod.mk.injEq] at h
          obtain ⟨h1, -⟩ := h
          injection h1 with h1
          subst h1
          obtain ⟨-, -, -, -, hc, hu⟩ := buildNewNote_ok _ _ _ _ hb2
          exact ⟨hc, hu⟩
      · rw [if_neg hcol] at h
        rw [Prod.mk.injEq] at h
        obtain ⟨h1, -⟩ := h
        injection h1 with h1
        subst h1
        obtain ⟨-, -, -, -, hc, hu⟩ := buildNewNote_ok _ _ _ _ hb1
        exact ⟨hc, hu⟩
  refine ⟨hts.1, hts.2, ?_⟩
  intro s n t1 t2 s1 hid hc1 hc2 hr
  simp only [reducer, if_neg hid] at hr
  injection hr with hr
  rw [← hr]
  refine ⟨_, alookup_ainsert_self _ _ _, ?_, ?_⟩
  · simp [createCore, hc1]
  · simp [createCore, hc2]

/-- C9 witness: a create whose argument carries alien timestamps still
stamps the clock value into both fields. -/
theorem c9_witness :
    ({ id := "g", title := "", content := "", createdAt := 5, updatedAt := 5 } : SNote).createdAt = 5 ∧
    ({ id := "g", title := "", content := "", createdAt := 5, updatedAt := 5 } : SNote).updatedAt = 5 :=
  ⟨(c9_create_timestamps { createdAt := some 77, updatedAt := some 88 } "g" "h" "i" 5 []
      { id := "g", title := "", content := "", createdAt := 5, updatedAt := 5 }
      [("g", { id := "g", title := some (""), content := some (""), createdAt := some 5, updatedAt := some 5 })]
      rfl).1,
   (c9_create_timestamps { createdAt := some 77, updatedAt := some 88 } "g" "h" "i" 5 []
      { id := "g", title := "", content := "", createdAt := 5, updatedAt := 5 }
      [("g", { id := "g", title := some (""), content := some (""), createdAt := some 5, updatedAt := some 5 })]
      rfl).2.1⟩

/-- C10: for a stored note with a well-formed id, updateNote with an
object argument resolves successfully even when title or content is
present but not a string: the non-string field is discarded and the
stored field kept, updatedAt is still stamped, and no InvalidInput
rejection occurs for malformed field values (only for a non-object
updates argument). -/
theorem c10_update_tolerates_nonstring_fields (id : String) (now : Nat) (map : SMap)
    (existing : SNoteRaw) (tf cf : FieldVal)
    (hid : strTrim id ≠ "") (hex : alookup map (strTrim id) = some existing)
    (hwf : strTrim existing.id ≠ "") :
    ∃ u, updateNote id (.obj tf cf) now map = (.ok u, ainsert map (strTrim id) u.toRaw) ∧
      u.updatedAt = now ∧
      u.title = (chooseField tf existing.title).getD ("") ∧
      u.content = (chooseField cf existing.content).getD ("") ∧
      (∀ s2, existing.title = some s2 → tf = .nonString → u.title = s2) := by
  cases hup : applyUpdates existing (chooseField tf existing.title)
      (chooseField cf existing.content) now with
  | error e =>
    obtain ⟨-, hni⟩ := applyUpdates_error _ _ _ _ _ hup
    exact absurd hni hwf
  | ok u0 =>
    obtain ⟨hui, hut, huc, hucr, huu⟩ := applyUpdates_ok _ _ _ _ _ hup
    refine ⟨u0, ?_, huu, hut, huc, ?_⟩
    · rw [updateNote.eq_def]
      rw [if_neg hid]
      simp only [hex, hup]
    · intro s2 hs2 htf
      rw [hut, htf, hs2]
      rfl

/-- C10 witness: a non-string title next to a string content on a
stored note. -/
theorem c10_witness :
    ∃ u, updateNote ("a") (.obj .nonString (.fstr ("new"))) 7
        [("a", { id := "a", title := some ("old"), content := some ("c"), createdAt := some 1, updatedAt := some 1 })] =
      (.ok u, ainsert
        [("a", { id := "a", title := some ("old"), content := some ("c"), createdAt := some 1, updatedAt := some 1 })]
        (strTrim ("a")) u.toRaw) ∧
      u.updatedAt = 7 ∧
      u.title = (chooseField FieldVal.nonString (some ("old"))).getD ("") ∧
      u.content = (chooseField (FieldVal.fstr ("new")) (some ("c"))).getD ("") ∧
      (∀ s2, (some ("old") : Option String) = some s2 → FieldVal.nonString = FieldVal.nonString →
        u.title = s2) :=
  c10_update_tolerates_nonstring_fields ("a") 7
    [("a", { id := "a", title := some ("old"), content := some ("c"), createdAt := some 1, updatedAt := some 1 })]
    { id := "a", title := some ("old"), content := some ("c"), createdAt := some 1, updatedAt := some 1 }
    .nonString (.fstr ("new")) (by decide) rfl (by decide)

/-- C5 counterexample: the store's UPDATE_NOTE spreads the whole updates
object, so a payload carrying createdAt rewrites it (1 becomes 99), and
with an unchanged clock the stored updatedAt is not strictly greater
than before — both against the claim. -/
theorem c5_counterexample :
    reducer 1
        { notesById := [("a", { id := "a", createdAt := some 1, updatedAt := some 1 })],
          order := ["a"], selectedNoteId := some ("a"), loading := false,
          error := none, query := "" }
        ⟨"UPDATE_NOTE", .obj { id := some ("a"), updates := { createdAt := some 99 } }⟩ =
      .ok { notesById := [("a", { id := "a", createdAt := some 99, updatedAt := some 1 })],
            order := ["a"], selectedNoteId := some ("a"), loading := false,
            error := none, query := "" } ∧
    (some 99 : Option Nat) ≠ some 1 ∧ ¬ (1 : Nat) < 1 :=
  ⟨rfl, by decide, by decide⟩

/-- C5 (amended): an update moves the id to the front of order and
stamps updatedAt with the clock (strictly greater than any earlier
previous value); id and createdAt are unchanged provided the store
payload does not itself carry id or createdAt fields — the adapter's
updateNote never forwards them, so at the adapter boundary id and
createdAt are unconditionally preserved. -/
theorem c5_update_frame :
    (∀ (now : Nat) (s : RState) (f : PFields) (id0 : String) (existing : RNote)
        (s1 : RState),
      f.id = some id0 → alookup s.notesById id0 = some existing →
      f.updates.id = none → f.updates.createdAt = none →
      reducer now s ⟨"UPDATE_NOTE", .obj f⟩ = .ok s1 →
      ∃ n1, alookup s1.notesById id0 = some n1 ∧
        n1.id = existing.id ∧ n1.createdAt = existing.createdAt ∧
        n1.updatedAt = some now ∧ s1.order.head? = some id0 ∧
        (∀ t0, existing.updatedAt = some t0 → t0 < now → t0 < n1.updatedAt.getD 0)) ∧
    (∀ (id : String) (tf cf : FieldVal) (now : Nat) (map : SMap) (existing : SNoteRaw)
        (u : SNote),
      alookup map (strTrim id) = some existing →
      (updateNote id (.obj tf cf) now map).1 = .ok u →
      u.id = strTrim existing.id ∧
      (∀ t0, existing.createdAt = some t0 → u.createdAt = t0) ∧
      u.updatedAt = now ∧
      (updateNote id (.obj tf cf) now map).2 = ainsert map (strTrim id) u.toRaw) := by
  constructor
  · intro now s f id0 existing s1 hfid hex hupdid hupdcr hr
    simp only [reducer, hfid, hex] at hr
    injection hr with hr
    rw [← hr]
    refine ⟨_, alookup_ainsert_self _ _ _, ?_, ?_, rfl, ?_, ?_⟩
    · simp [updateCore, hupdid]
    · simp [updateCore, hupdcr]
    · exact head_insertAtBeginningUnique _ _
    · intro t0 _ ht
      simpa using ht
  · intro id tf cf now map existing u hex hok
    by_cases hid : strTrim id = ""
    · rw [updateNote.eq_def] at hok
      rw [if_pos hid] at hok
      exact absurd hok (by simp)
    · cases hup : applyUpdates existing (chooseField tf existing.title)
          (chooseField cf existing.content) now with
      | error e =>
        rw [updateNote.eq_def] at hok
        rw [if_neg hid] at hok
        simp only [hex, hup] at hok
        exact absurd hok (by simp)
      | ok u0 =>
        have hu0 : u0 = u := by
          rw [updateNote.eq_def] at hok
          rw [if_neg hid] at hok
          simp only [hex, hup] at hok
          injection hok
        subst hu0
        obtain ⟨hui, -, -, hucr, huu⟩ := applyUpdates_ok _ _ _ _ _ hup
        refine ⟨hui, ?_, huu, ?_⟩
        · intro t0 ht0
          rw [hucr, ht0]
          rfl
        · rw [updateNote.eq_def]
          rw [if_neg hid]
          simp only [hex, hup]

/-- C5 witness: the store part applied to a one-note state with a
title-only payload, and the adapter part at the matching call. -/
theorem c5_witness :
    (∃ n1, alookup (reducer 9
        { notesById := [("a", { id := "a", createdAt := some 1, updatedAt := some 1 })],
          order := ["a"], selectedNoteId := some ("a"), loading := false,
          error := none, query := "" }
        ⟨"UPDATE_NOTE", .obj { id := some ("a"), updates := { title := some ("Z") } }⟩
        |>.toOption.getD initialState).notesById ("a") = some n1 ∧
      n1.id = "a" ∧ n1.createdAt = some 1 ∧ n1.updatedAt = some 9) := by
  obtain ⟨n1, h1, h2, h3, h4, -, -⟩ :=
    c5_update_frame.1 9
      { notesById := [("a", { id := "a", createdAt := some 1, updatedAt := some 1 })],
        order := ["a"], selectedNoteId := some ("a"), loading := false,
        error := none, query := "" }
      { id := some ("a"), updates := { title := some ("Z") } } "a"
      { id := "a", createdAt := some 1, updatedAt := some 1 } _
      rfl rfl rfl rfl rfl
  exact ⟨n1, h1, h2, h3, h4⟩

/-- C8 counterexample: the same timestampless note created twice with an
advancing clock yields different notesById contents (updatedAt 0 then
1), refuting idempotence of notesById under re-stamping. -/
theorem c8_counterexample :
    reducer 0 initialState ⟨"CREATE_NOTE", .obj { note := .note { id := "a" } }⟩ =
      .ok { notesById := [("a", { id := "a", title := some (""), content := some (""), createdAt := some 0, updatedAt := some 0 })],
            order := ["a"], selectedNoteId := some ("a"), loading := false,
            error := none, query := "" } ∧
    reducer 1
        { notesById := [("a", { id := "a", title := some (""), content := some (""), createdAt := some 0, updatedAt := some 0 })],
          order := ["a"], selectedNoteId := some ("a"), loading := false,
          error := none, query := "" }
        ⟨"CREATE_NOTE", .obj { note := .note { id := "a" } }⟩ =
      .ok { notesById := [("a", { id := "a", title := some (""), content := some (""), createdAt := some 1, updatedAt := some 1 })],
            order := ["a"], selectedNoteId := some ("a"), loading := false,
            error := none, query := "" } ∧
    [("a", ({ id := "a", title := some (""), content := some (""), createdAt := some 0, updatedAt := some 0 } : RNote))] ≠
      [("a", { id := "a", title := some (""), content := some (""), createdAt := some 1, updatedAt := some 1 })] :=
  ⟨rfl, rfl, by decide⟩

/-- C8 (amended): each CREATE_NOTE application moves the id to the
front of order; the stored updatedAt is the payload value when provided
and the clock otherwise (re-stamped only then); and applying the same
create twice is idempotent on notesById whenever the note provides both
of its timestamps (as adapter-created notes always do) — without them,
contents differ across clock values (see the counterexample). -/
theorem c8_create_twice (now1 now2 : Nat) (s : RState) (n : RNote)
    (s1 s2 : RState) (hid : n.id ≠ "")
    (h1 : reducer now1 s ⟨"CREATE_NOTE", .obj { note := .note n }⟩ = .ok s1)
    (h2 : reducer now2 s1 ⟨"CREATE_NOTE", .obj { note := .note n }⟩ = .ok s2) :
    s1.order.head? = some n.id ∧ s2.order.head? = some n.id ∧
    (∃ n1, alookup s1.notesById n.id = some n1 ∧
      n1.updatedAt = some (n.updatedAt.getD now1)) ∧
    (n.createdAt.isSome = true → n.updatedAt.isSome = true →
      s2.notesById = s1.notesById) := by
  simp only [reducer, if_neg hid] at h1 h2
  injection h1 with h1
  injection h2 with h2
  rw [← h1] at h2 ⊢
  rw [← h2]
  refine ⟨head_insertAtBeginningUnique _ _, head_insertAtBeginningUnique _ _,
    ⟨_, alookup_ainsert_self _ _ _, rfl⟩, ?_⟩
  intro hc hu
  obtain ⟨c0, hc0⟩ := Option.isSome_iff_exists.mp hc
  obtain ⟨u0, hu0⟩ := Option.isSome_iff_exists.mp hu
  show ainsert (ainsert s.notesById n.id _) n.id _ = ainsert s.notesById n.id _
  simp only [createCore, hc0, hu0, Option.getD_some]
  exact ainsert_ainsert_self _ _ _

/-- C8 witness: creating a note that carries its own timestamps twice
under an advancing clock leaves notesById unchanged after the second
application. -/
theorem c8_witness :
    ({ notesById := [("a", { id := "a", title := some (""), content := some (""), createdAt := some 3, updatedAt := some 4 })],
       order := ["a"], selectedNoteId := some ("a"), loading := false,
       error := none, query := "" } : RState).notesById =
      [("a", { id := "a", title := some (""), content := some (""), createdAt := some 3, updatedAt := some 4 })] :=
  (c8_create_twice 7 8 initialState
    { id := "a", createdAt := some 3, updatedAt := some 4 }
    { notesById := [("a", { id := "a", title := some (""), content := some (""), createdAt := some 3, updatedAt := some 4 })],
      order := ["a"], selectedNoteId := some ("a"), loading := false,
      error := none, query := "" }
    { notesById := [("a", { id := "a", title := some (""), content := some (""), createdAt := some 3, updatedAt := some 4 })],
      order := ["a"], selectedNoteId := some ("a"), loading := false,
      error := none, query := "" }
    (by decide) rfl rfl).2.2.2 (by decide) (by decide)

/-- C7 counterexample: the address with a stray percent sign matches the
note-reference pattern, and decoding its segment throws a URIError
(modelled as none): parsing fails instead of falling back to Home. -/
theorem c7_counterexample :
    parseHash ("#/note/%".toList) = none ∧
    matchNote (normalizeHash ("#/note/%".toList)) = some ['%'] ∧
    (none : Option Route) ≠ some Route.home := by
  refine ⟨?_, ?_, by decide⟩
  · simp [parseHash, normalizeHash, matchNote, trimCharList, decodeURIComponent, decodePct]
  · simp [normalizeHash, matchNote, trimCharList]

/-- C7 (amended): the canonical address built for any non-empty id
parses back to the same note reference (percent round-trip, including
space as in abc 123), and every address whose normalized form does not
match the note pattern parses to Home; but a note-pattern address whose
segment is malformed percent-encoding throws instead of falling back
(see the counterexample). -/
theorem c7_roundtrip_and_home_fallback :
    (∀ id : List Char, id ≠ [] → parseHash (buildHashForNote id) = some (Route.note id)) ∧
    (∀ s : List Char, matchNote (normalizeHash s) = none → parseHash s = some Route.home) ∧
    parseHash ("#/note/abc%20123".toList) = some (Route.note ("abc 123".toList)) := by
  refine ⟨parseHash_buildHash, parseHash_home_of_no_match, ?_⟩
  simp [parseHash, normalizeHash, matchNote, trimCharList, decodeURIComponent,
    decodePct, hexVal]

/-- C7 witness: the round trip at the id abc 123 and the Home fallback
at an unknown address. -/
theorem c7_witness :
    parseHash (buildHashForNote ("abc 123".toList)) =
      some (Route.note ("abc 123".toList)) ∧
    parseHash ("#/somewhere".toList) = some Route.home :=
  ⟨c7_roundtrip_and_home_fallback.1 ("abc 123".toList) (by decide),
   c7_roundtrip_and_home_fallback.2.1 ("#/somewhere".toList)
     (by simp [normalizeHash, matchNote, trimCharList])⟩

end NoteKeeper

